import Mathlib

/-!
Shallow embedding of `src/discord/audit_logs.py` (the audit-log payload
decoder of the pycord fork): the transformer table, the change-diff
builder (`AuditLogChanges.__init__`), the composite `$add`/`$remove`
handlers, the entry `extra` dispatch (`AuditLogEntry._from_data`), the
memoized `changes`/`before`/`after` accessors, and the invite target
resolver.  Raw payload values, decoded values and domain objects are all
embedded into a single inductive `Value`; attribute bags
(`AuditLogDiff`) are association lists; fallible Python code (key
errors, `int()` coercion failures) is modelled with `Except Unit`.
-/

namespace AuditLogs

/-- Embedded universe of raw payload values and decoded domain values.
`vNull` is Python's `None`; `vDict` is a JSON-style object; `vObject`
is `discord.Object` (an opaque id reference whose `name` attribute may
have been assigned); `vEnum name raw known` is the result of
`enums.try_enum` (`known = false` is the unknown-ordinal sentinel);
`vSEL` is `ScheduledEventLocation`; `vAsset kind oid h` stands for the
external `Asset` constructors applied to their arguments; `vPair` is a
Python tuple of two elements. -/
inductive Value where
  | vNull : Value
  | vInt (n : Int) : Value
  | vStr (s : String) : Value
  | vBool (b : Bool) : Value
  | vList (xs : List Value) : Value
  | vDict (d : List (String × Value)) : Value
  | vPair (a b : Value) : Value
  | vPermissions (n : Int) : Value
  | vColour (n : Int) : Value
  | vObject (id : Int) (name : Option Value) : Value
  | vChannel (id : Int) : Value
  | vRole (id : Int) (name : String) : Value
  | vMember (id : Int) : Value
  | vUser (id : Int) : Value
  | vGuild (id : Int) : Value
  | vAsset (kind : String) (oid : Option Int) (h : Value) : Value
  | vEnum (enumName : String) (raw : Value) (known : Bool) : Value
  | vSEL (value : Value) : Value
  | vOverwrite (allow deny : Int) : Value
  | vAutoModAction (raw : Value) : Value
  | vTriggerMetadata (raw : Value) : Value
  | vInvite (maxAge maxUses code temporary uses channel : Value)
      (inviter : Option Value) : Value

open Value

/-- An `AuditLogDiff` bag: insertion-ordered attribute list
(Python instance `__dict__`). -/
def Diff := List (String × Value)

/-- Python `setattr`: overwrite in place if present, else append. -/
def setAttr : Diff → String → Value → Diff
  | [], k, v => [(k, v)]
  | (k', v') :: rest, k, v =>
      if k' = k then (k', v) :: rest else (k', v') :: setAttr rest k v

/-- Attribute lookup (`getattr`, as an `Option`). -/
def getAttr : Diff → String → Option Value
  | [], _ => none
  | (k', v') :: rest, k => if k' = k then some v' else getAttr rest k

/-- Python `hasattr`. -/
def hasAttr (d : Diff) (k : String) : Bool := (getAttr d k).isSome

/-- One raw change record `{key, old_value?, new_value?}`. -/
structure Change where
  key : String
  old_value : Option Value
  new_value : Option Value

/-- Python `v == n` for an integer literal `n`: integers compare by
value, booleans compare as 0/1, every other type compares unequal
(Python cross-type `==` on builtins is `False`). -/
def pyEqInt : Value → Int → Bool
  | vInt m, n => m = n
  | vBool b, n => (if b then (1 : Int) else 0) = n
  | _, _ => false

/-- Python `v == s` for a string literal `s`. -/
def pyEqStr : Value → String → Bool
  | vStr t, s => t = s
  | _, _ => false

/-- Decimal digit run parser: `none` unless every character is a
digit and the run is nonempty. -/
def digitsToNat : List Char → Option Nat
  | [] => none
  | cs => go cs 0
where
  go : List Char → Nat → Option Nat
    | [], acc => some acc
    | c :: rest, acc =>
        if 48 ≤ c.toNat ∧ c.toNat ≤ 57
        then go rest (acc * 10 + (c.toNat - 48))
        else none

/-- Python `int(s)` on a string: an optional sign followed by decimal
digits; anything else raises `ValueError` (`none`). -/
def strToInt (s : String) : Option Int :=
  match s.toList with
  | '-' :: rest => (digitsToNat rest).map (fun n => -(n : Int))
  | '+' :: rest => (digitsToNat rest).map Int.ofNat
  | cs => (digitsToNat cs).map Int.ofNat

/-- Python `int(v)`: `none` is a failure (`TypeError`/`ValueError`). -/
def pyToInt : Value → Option Int
  | vInt n => some n
  | vBool b => some (if b then 1 else 0)
  | vStr s => strToInt s
  | _ => none

/-- Lexicographic `≤` on code-point lists (Python string comparison). -/
def leChars : List Char → List Char → Bool
  | [], _ => true
  | _ :: _, [] => false
  | a :: as, b :: bs =>
      if a < b then true
      else if b < a then false
      else leChars as bs

/-- String `a <= b`, by code points. -/
def strLe (a b : String) : Bool := leChars a.toList b.toList

/-- Whether `p` begins `s`. -/
def listBegins : List Char → List Char → Bool
  | [], _ => true
  | _ :: _, [] => false
  | a :: as, b :: bs => if a = b then listBegins as bs else false

/-- Python `s.startswith(p)`. -/
def strStartsWith (s p : String) : Bool := listBegins p.toList s.toList

/-- Python `s.endswith(p)`. -/
def strEndsWith (s p : String) : Bool :=
  listBegins p.toList.reverse s.toList.reverse

/-- Modelled from the spec: the enum collaborator (`enums.try_enum` and
the enum classes live outside this module, §6).  `known e v` says raw
value `v` is a declared ordinal of enum `e` (tolerant lookup: unknown
ordinals degrade to an unknown-value sentinel rather than failing);
`seltExternal` is the ordinal of the "external" member of the
scheduled-event location type enum, which §4.2 umpires the `location`
special case on. -/
structure EnumEnv where
  known : String → Value → Bool
  seltExternal : Int

/-- Model of `enums.try_enum`: the member when the ordinal is declared, the
raw-value-carrying unknown sentinel otherwise. -/
def tryEnum (env : EnumEnv) (e : String) (v : Value) : Value :=
  vEnum e v (env.known e v)

/-- The member object `ScheduledEventLocationType.external`. -/
def externalMember (env : EnumEnv) : Value :=
  vEnum "ScheduledEventLocationType" (vInt env.seltExternal) true

/-- Python `v is ScheduledEventLocationType.external`: true exactly for
the known member with the external ordinal (an unknown sentinel or any
other value is never identical to the member). -/
def isExternalLocType (env : EnumEnv) : Value → Bool
  | vEnum e (vInt m) known =>
      e = "ScheduledEventLocationType" && known && m = env.seltExternal
  | _ => false

/-- Modelled from the spec: the audit-log action enum (defined in the
external `enums` module).  Constructors cover the action families the
decoder dispatches on (§4.4): prune/move/disconnect/pin/overwrite/
stage-instance extras, sticker-prefixed actions for the `type`
transform, and the invite actions for target resolution. -/
inductive ALAction where
  | guild_update
  | channel_create | channel_update | channel_delete
  | overwrite_create | overwrite_update | overwrite_delete
  | kick | member_prune | ban | unban
  | member_update | member_role_update | member_move | member_disconnect
  | bot_add
  | role_create | role_update | role_delete
  | invite_create | invite_update | invite_delete
  | webhook_create | webhook_update | webhook_delete
  | emoji_create | emoji_update | emoji_delete
  | message_delete | message_bulk_delete | message_pin | message_unpin
  | stage_instance_create | stage_instance_update | stage_instance_delete
  | sticker_create | sticker_update | sticker_delete
  | scheduled_event_create | scheduled_event_update | scheduled_event_delete
  | thread_create | thread_update | thread_delete
deriving DecidableEq

/-- The Python enum member name, `AuditLogAction.<member>.name`. -/
def actionName : ALAction → String
  | .guild_update => "guild_update"
  | .channel_create => "channel_create"
  | .channel_update => "channel_update"
  | .channel_delete => "channel_delete"
  | .overwrite_create => "overwrite_create"
  | .overwrite_update => "overwrite_update"
  | .overwrite_delete => "overwrite_delete"
  | .kick => "kick"
  | .member_prune => "member_prune"
  | .ban => "ban"
  | .unban => "unban"
  | .member_update => "member_update"
  | .member_role_update => "member_role_update"
  | .member_move => "member_move"
  | .member_disconnect => "member_disconnect"
  | .bot_add => "bot_add"
  | .role_create => "role_create"
  | .role_update => "role_update"
  | .role_delete => "role_delete"
  | .invite_create => "invite_create"
  | .invite_update => "invite_update"
  | .invite_delete => "invite_delete"
  | .webhook_create => "webhook_create"
  | .webhook_update => "webhook_update"
  | .webhook_delete => "webhook_delete"
  | .emoji_create => "emoji_create"
  | .emoji_update => "emoji_update"
  | .emoji_delete => "emoji_delete"
  | .message_delete => "message_delete"
  | .message_bulk_delete => "message_bulk_delete"
  | .message_pin => "message_pin"
  | .message_unpin => "message_unpin"
  | .stage_instance_create => "stage_instance_create"
  | .stage_instance_update => "stage_instance_update"
  | .stage_instance_delete => "stage_instance_delete"
  | .sticker_create => "sticker_create"
  | .sticker_update => "sticker_update"
  | .sticker_delete => "sticker_delete"
  | .scheduled_event_create => "scheduled_event_create"
  | .scheduled_event_update => "scheduled_event_update"
  | .scheduled_event_delete => "scheduled_event_delete"
  | .thread_create => "thread_create"
  | .thread_update => "thread_update"
  | .thread_delete => "thread_delete"

/-- Model of `entry.action.name`: `enums.try_enum` on an unknown ordinal yields
an unknown-value sentinel whose `.name` is `"unknown_value"`-styled and
so never matches the `sticker_` / `overwrite_` / `stage_instance` /
`pin` tests; `none` models that sentinel. -/
def entryActionName : Option ALAction → String
  | some a => actionName a
  | none => "unknown_value"

/-- The entry-side context the transformers read: the owning guild's
caches (`guild.get_channel`, `guild.get_role`, `guild.get_member`), the
connection state's guild table (`_state._get_guild`), the fallback user
table passed at construction (`self._users`), `self._target_id` and
`self.action`.  The caches are external collaborators (§1), embedded as
the id sets / id-to-name tables they answer from. -/
structure EntryCtx where
  guildId : Int
  channels : List Int
  roles : List (Int × String)
  members : List Int
  stateGuilds : List Int
  users : List Int
  targetId : Option Int
  action : Option ALAction

/-- Lookup `entry.guild.get_channel(n)`. -/
def getChannel (ctx : EntryCtx) (n : Int) : Option Value :=
  if n ∈ ctx.channels then some (vChannel n) else none

/-- Lookup `entry.guild.get_role(n)`. -/
def getRole (ctx : EntryCtx) (n : Int) : Option Value :=
  (ctx.roles.lookup n).map (vRole n)

/-- Model of `entry._get_member(n)`: the guild member cache, then the fallback
user table, then `None` (src/discord/audit_logs.py:599-600). -/
def getMemberOrUser (ctx : EntryCtx) (n : Int) : Option Value :=
  if n ∈ ctx.members then some (vMember n)
  else if n ∈ ctx.users then some (vUser n)
  else none

/-- Model of `entry._state._get_guild(data)`: a dict keyed by integer ids,
queried with the raw (uncoerced) value — `_transform_guild_id` passes
the raw snowflake straight through, so only values that compare equal
to an integer key can hit. -/
def getStateGuild (ctx : EntryCtx) : Value → Value
  | vInt n => if n ∈ ctx.stateGuilds then vGuild n else vNull
  | vBool b => if (if b then (1 : Int) else 0) ∈ ctx.stateGuilds
               then vGuild (if b then 1 else 0) else vNull
  | _ => vNull

/-- Dictionary key lookup on an embedded dict, `d[k]`-style (first
binding wins, as in a Python dict literal with unique keys). -/
def dictGet : List (String × Value) → String → Option Value
  | [], _ => none
  | (k', v') :: rest, k => if k' = k then some v' else dictGet rest k

/-- Tags naming the transformer functions of the module
(src/discord/audit_logs.py:69-209); `applyT` interprets them. -/
inductive TTag where
  | permsT
  | colorT
  | snowflakeT
  | channelT
  | channelsT
  | rolesT
  | memberIdT
  | guildIdT
  | overwritesT
  | iconT
  | avatarT
  | schedEventImageT
  | guildHashT (path : String)
  | enumT (e : String)
  | typeT
  | actionsT
  | triggerMetadataT
deriving DecidableEq

/-- Model of `_transform_channel`: `None` passes through, otherwise the cached
channel or an id-only `Object` (src/discord/audit_logs.py:81-86). -/
def transformChannelOne (ctx : EntryCtx) : Value → Except Unit Value
  | vNull => .ok vNull
  | v => match pyToInt v with
      | none => .error ()
      | some n => .ok ((getChannel ctx n).getD (vObject n none))

/-- One element of `_transform_overwrites`
(src/discord/audit_logs.py:119-141). -/
def transformOverwriteOne (ctx : EntryCtx) : Value → Except Unit Value
  | vDict d => do
      let allowRaw ← match dictGet d "allow" with
        | some v => .ok v | none => .error ()
      let allow ← match pyToInt allowRaw with
        | some n => .ok n | none => .error ()
      let denyRaw ← match dictGet d "deny" with
        | some v => .ok v | none => .error ()
      let deny ← match pyToInt denyRaw with
        | some n => .ok n | none => .error ()
      let owType ← match dictGet d "type" with
        | some v => .ok v | none => .error ()
      let idRaw ← match dictGet d "id" with
        | some v => .ok v | none => .error ()
      let owId ← match pyToInt idRaw with
        | some n => .ok n | none => .error ()
      let target :=
        if pyEqInt owType 0 then getRole ctx owId
        else if pyEqInt owType 1 then getMemberOrUser ctx owId
        else none
      .ok (vPair (target.getD (vObject owId none)) (vOverwrite allow deny))
  | _ => .error ()

/-- Interpreter of the transformer functions.  `.error ()` stands for a
raised exception (bad `int()` coercion, missing required dict key, or a
non-list where the function iterates). -/
def applyT (t : TTag) (env : EnumEnv) (ctx : EntryCtx) (v : Value) :
    Except Unit Value :=
  match t, v with
  | .permsT, v => match pyToInt v with
      | some n => .ok (vPermissions n) | none => .error ()
  | .colorT, vInt n => .ok (vColour n)
  | .colorT, vBool b => .ok (vColour (if b then 1 else 0))
  | .colorT, _ => .error ()
  | .snowflakeT, v => match pyToInt v with
      | some n => .ok (vInt n) | none => .error ()
  | .channelT, v => transformChannelOne ctx v
  | .channelsT, vNull => .ok vNull
  | .channelsT, vList xs => do
      let ys ← xs.mapM (transformChannelOne ctx)
      .ok (vList ys)
  | .channelsT, _ => .error ()
  | .rolesT, vNull => .ok vNull
  | .rolesT, vList xs => do
      let ys ← xs.mapM (fun r => match pyToInt r with
        | none => .error ()
        | some n => .ok ((getRole ctx n).getD (vObject n none)))
      .ok (vList ys)
  | .rolesT, _ => .error ()
  | .memberIdT, vNull => .ok vNull
  | .memberIdT, v => match pyToInt v with
      | none => .error ()
      | some n => .ok ((getMemberOrUser ctx n).getD vNull)
  | .guildIdT, vNull => .ok vNull
  | .guildIdT, v => .ok (getStateGuild ctx v)
  | .overwritesT, vList xs => do
      let ys ← xs.mapM (transformOverwriteOne ctx)
      .ok (vList ys)
  | .overwritesT, _ => .error ()
  | .iconT, vNull => .ok vNull
  | .iconT, v => .ok (vAsset "guild_icon" (some ctx.guildId) v)
  | .avatarT, vNull => .ok vNull
  | .avatarT, v => .ok (vAsset "avatar" ctx.targetId v)
  | .schedEventImageT, vNull => .ok vNull
  | .schedEventImageT, v =>
      .ok (vAsset "scheduled_event_image" ctx.targetId v)
  | .guildHashT _, vNull => .ok vNull
  | .guildHashT p, v => .ok (vAsset p (some ctx.guildId) v)
  | .enumT e, v => .ok (tryEnum env e v)
  | .typeT, v =>
      if strStartsWith (entryActionName ctx.action) "sticker_"
      then .ok (tryEnum env "StickerType" v)
      else .ok (tryEnum env "ChannelType" v)
  | .actionsT, vNull => .ok vNull
  | .actionsT, vList xs => .ok (vList (xs.map vAutoModAction))
  | .actionsT, _ => .error ()
  | .triggerMetadataT, vNull => .ok vNull
  | .triggerMetadataT, v => .ok (vTriggerMetadata v)

/-- The `AuditLogChanges.TRANSFORMERS` class table
(src/discord/audit_logs.py:234-284): raw key to
`(renamed-to?, transformer?)`. -/
def transformInfo : String → Option (Option String × Option TTag)
  | "verification_level" => some (none, some (.enumT "VerificationLevel"))
  | "explicit_content_filter" => some (none, some (.enumT "ContentFilter"))
  | "allow" => some (none, some .permsT)
  | "deny" => some (none, some .permsT)
  | "permissions" => some (none, some .permsT)
  | "id" => some (none, some .snowflakeT)
  | "color" => some (some "colour", some .colorT)
  | "owner_id" => some (some "owner", some .memberIdT)
  | "inviter_id" => some (some "inviter", some .memberIdT)
  | "channel_id" => some (some "channel", some .channelT)
  | "afk_channel_id" => some (some "afk_channel", some .channelT)
  | "system_channel_id" => some (some "system_channel", some .channelT)
  | "widget_channel_id" => some (some "widget_channel", some .channelT)
  | "rules_channel_id" => some (some "rules_channel", some .channelT)
  | "public_updates_channel_id" =>
      some (some "public_updates_channel", some .channelT)
  | "permission_overwrites" => some (some "overwrites", some .overwritesT)
  | "splash_hash" => some (some "splash", some (.guildHashT "splashes"))
  | "banner_hash" => some (some "banner", some (.guildHashT "banners"))
  | "discovery_splash_hash" =>
      some (some "discovery_splash", some (.guildHashT "discovery-splashes"))
  | "icon_hash" => some (some "icon", some .iconT)
  | "avatar_hash" => some (some "avatar", some .avatarT)
  | "rate_limit_per_user" => some (some "slowmode_delay", none)
  | "guild_id" => some (some "guild", some .guildIdT)
  | "tags" => some (some "emoji", none)
  | "default_message_notifications" =>
      some (some "default_notifications", some (.enumT "NotificationLevel"))
  | "rtc_region" => some (none, some (.enumT "VoiceRegion"))
  | "video_quality_mode" => some (none, some (.enumT "VideoQualityMode"))
  | "privacy_level" => some (none, some (.enumT "StagePrivacyLevel"))
  | "format_type" => some (none, some (.enumT "StickerFormatType"))
  | "type" => some (none, some .typeT)
  | "status" => some (none, some (.enumT "ScheduledEventStatus"))
  | "entity_type" =>
      some (some "location_type", some (.enumT "ScheduledEventLocationType"))
  | "command_id" => some (some "command_id", some .snowflakeT)
  | "image_hash" => some (some "image", some .schedEventImageT)
  | "trigger_type" => some (none, some (.enumT "AutoModTriggerType"))
  | "event_type" => some (none, some (.enumT "AutoModEventType"))
  | "actions" => some (none, some .actionsT)
  | "trigger_metadata" => some (none, some .triggerMetadataT)
  | "exempt_roles" => some (none, some .rolesT)
  | "exempt_channels" => some (none, some .channelsT)
  | _ => none

/-- The three `$add_*` trigger-metadata pseudo-keys
(src/discord/audit_logs.py:306-310). -/
def triggerAddKeys : List String :=
  ["$add_keyword_filter", "$add_regex_patterns", "$add_allow_list"]

/-- The three `$remove_*` trigger-metadata pseudo-keys
(src/discord/audit_logs.py:315-319). -/
def triggerRemoveKeys : List String :=
  ["$remove_keyword_filter", "$remove_regex_patterns", "$remove_allow_list"]

/-- One role stub of a `$add`/`$remove` list: `int(e["id"])`, then the
cached role, else an `Object` whose `name` is assigned the stub's
`"name"` value (src/discord/audit_logs.py:405-413). -/
def resolveRoleStub (ctx : EntryCtx) : Value → Except Unit Value
  | vDict d => do
      let idRaw ← match dictGet d "id" with
        | some v => .ok v | none => .error ()
      let rid ← match pyToInt idRaw with
        | some n => .ok n | none => .error ()
      match getRole ctx rid with
      | some r => .ok r
      | none => do
          let nameRaw ← match dictGet d "name" with
            | some v => .ok v | none => .error ()
          .ok (vObject rid (some nameRaw))
  | _ => .error ()

/-- Model of `AuditLogChanges._handle_role` (src/discord/audit_logs.py:392-415):
ensure an empty-list `roles` placeholder on `first`, resolve the stub
list, and write it as `roles` on `second`. -/
def handleRole (ctx : EntryCtx) (first second : Diff) (elemVal : Value) :
    Except Unit (Diff × Diff) := do
  let first := if hasAttr first "roles" then first
               else setAttr first "roles" (vList [])
  let xs ← match elemVal with
    | vList xs => .ok xs | _ => .error ()
  let data ← xs.mapM (resolveRoleStub ctx)
  .ok (first, setAttr second "roles" (vList data))

/-- Python `attr.split("_", 1)[-1]`: everything after the first underscore
(the whole string when there is none). -/
def afterFirstUnderscore : List Char → Option (List Char)
  | [] => none
  | c :: rest => if c = '_' then some rest else afterFirstUnderscore rest

/-- String form of `afterFirstUnderscore`. -/
def splitSuffix (s : String) : String :=
  match afterFirstUnderscore s.toList with
  | some cs => ⟨cs⟩
  | none => s

/-- Model of `AuditLogChanges._handle_trigger_metadata`
(src/discord/audit_logs.py:417-432): ensure a `None` placeholder for
`trigger_metadata` on `first`, then assign to `second` a metadata
object built (by the external `AutoModTriggerMetadata.from_dict`) from
the single-field dict keyed by the pseudo-key's suffix. -/
def handleTriggerMetadata (first second : Diff) (elemVal : Value)
    (attr : String) : Diff × Diff :=
  let first := if hasAttr first "trigger_metadata" then first
               else setAttr first "trigger_metadata" vNull
  let tm := vTriggerMetadata (vDict [(splitSuffix attr, elemVal)])
  (first, setAttr second "trigger_metadata" tm)

/-- The `location` special case (src/discord/audit_logs.py:343-355 and
366-377): when the resolved attribute is `location` and the given bag
(the same-direction one, `self.before` for the before side and
`self.after` for the after side) already carries a `location_type`,
wrap in a `ScheduledEventLocation` — around the raw value if that
`location_type` is the external member, else around the bag's
`channel` if it has one; otherwise leave the value as is. -/
def locWrap (env : EnumEnv) (bag : Diff) (attr : String) (v : Value) :
    Value :=
  if attr = "location" then
    match getAttr bag "location_type" with
    | none => v
    | some lt =>
        if isExternalLocType env lt then vSEL v
        else match getAttr bag "channel" with
          | some ch => vSEL ch
          | none => v
  else v

/-- One side of the generic path (src/discord/audit_logs.py:335-341
and 358-364): a missing `old_value`/`new_value` becomes `None`
(`except KeyError: before = None`), a present one goes through the
transformer when the key has one. -/
def genericValue (env : EnumEnv) (ctx : EntryCtx) (tr : Option TTag) :
    Option Value → Except Unit Value
  | none => .ok vNull
  | some v =>
      match tr with
      | none => .ok v
      | some t => applyT t env ctx v

/-- One iteration of the `AuditLogChanges.__init__` loop
(src/discord/audit_logs.py:296-379) on the accumulated
`(before, after)` pair: composite pseudo-keys route to the dedicated
handlers (`elem["new_value"]` is read unconditionally there, so its
absence raises); every other key takes the generic transform path,
which writes to both bags unconditionally (`None` standing in for an
absent side). -/
def processElem (env : EnumEnv) (ctx : EntryCtx) (st : Diff × Diff)
    (elem : Change) : Except Unit (Diff × Diff) :=
  let bagB := st.1
  let bagA := st.2
  if elem.key = "$add" then do
    let nv ← match elem.new_value with
      | some v => .ok v | none => .error ()
    let fs ← handleRole ctx bagB bagA nv
    .ok fs
  else if elem.key = "$remove" then do
    let nv ← match elem.new_value with
      | some v => .ok v | none => .error ()
    let fs ← handleRole ctx bagA bagB nv
    .ok (fs.2, fs.1)
  else if elem.key ∈ triggerAddKeys then do
    let nv ← match elem.new_value with
      | some v => .ok v | none => .error ()
    .ok (handleTriggerMetadata bagB bagA nv elem.key)
  else if elem.key ∈ triggerRemoveKeys then do
    let nv ← match elem.new_value with
      | some v => .ok v | none => .error ()
    let fs := handleTriggerMetadata bagA bagB nv elem.key
    .ok (fs.2, fs.1)
  else
    let info := transformInfo elem.key
    let attr := match info with
      | some (some r, _) => r
      | _ => elem.key
    let tr : Option TTag := match info with
      | some (_, t) => t
      | none => none
    do
      let beforeVal ← genericValue env ctx tr elem.old_value
      let bagB := setAttr bagB attr (locWrap env bagB attr beforeVal)
      let afterVal ← genericValue env ctx tr elem.new_value
      .ok (bagB, setAttr bagA attr (locWrap env bagA attr afterVal))

/-- Sequential processing of the (sorted) change records. -/
def processList (env : EnumEnv) (ctx : EntryCtx) :
    Diff × Diff → List Change → Except Unit (Diff × Diff)
  | st, [] => .ok st
  | st, e :: rest => do
      let st' ← processElem env ctx st e
      processList env ctx st' rest

/-- Python attribute / required-key access: absence raises. -/
def reqVal : Option Value → Except Unit Value
  | some v => .ok v
  | none => .error ()

/-- One mirror block of the post-pass aliasing: when the after bag has
`src`, write its value under `dst` on the after bag, then read `src`
off the before bag (raising if missing there) and write it under `dst`
on the before bag. -/
def mirrorAttr (src dst : String) (st : Diff × Diff) :
    Except Unit (Diff × Diff) :=
  if hasAttr st.2 src = true then do
    let av ← reqVal (getAttr st.2 src)
    let a := setAttr st.2 dst av
    let bv ← reqVal (getAttr st.1 src)
    .ok (setAttr st.1 dst bv, a)
  else .ok st

/-- The post-pass aliasing (src/discord/audit_logs.py:381-387): mirror
`colour` to `color` and `expire_behavior` to `expire_behaviour` on
both bags when the after bag has the source attribute; the before-bag
read raises if the attribute is missing there. -/
def aliasPass (st : Diff × Diff) : Except Unit (Diff × Diff) := do
  let st₁ ← mirrorAttr "colour" "color" st
  mirrorAttr "expire_behavior" "expire_behaviour" st₁

/-- Comparison used by the deterministic sort of the change records
(`sorted(data, key=lambda i: i["key"])`, src/discord/audit_logs.py:296). -/
def keyLE (x y : Change) : Prop := strLe x.key y.key = true

instance : DecidableRel keyLE := fun x y =>
  inferInstanceAs (Decidable (strLe x.key y.key = true))

/-- Model of `AuditLogChanges.__init__` (src/discord/audit_logs.py:286-387):
stable-sort the raw records by field key, fold the per-record step over
the empty bags, then run the alias pass. -/
def changesInit (env : EnumEnv) (ctx : EntryCtx) (data : List Change) :
    Except Unit (Diff × Diff) := do
  let st ← processList env ctx ([], []) (List.insertionSort keyLE data)
  aliasPass st

/-- The possible shapes of `entry.extra` after `_from_data`
(src/discord/audit_logs.py:509-587): the raw options (possibly absent)
left untouched, one of the ad hoc `_AuditLogProxy` records, or — for
`overwrite_*` actions — the resolved member/user (possibly `None`) or
the role-or-reference that replaces the whole field. -/
inductive ExtraResult where
  | raw (d : Option (List (String × Value)))
  | proxyPrune (fields : List (String × Int))
  | proxyMoveOrDelete (count : Int) (channel : Value)
  | proxyDisconnect (count : Int)
  | proxyPin (channel : Value) (messageId : Int)
  | proxyStage (channel : Value)
  | memberE (v : Value)
  | roleE (v : Value)

/-- The `extra` computation of `AuditLogEntry._from_data`
(src/discord/audit_logs.py:515-587).  The branch only runs when the
action resolved to a genuine enum member and the options dict is truthy
(non-`None` and non-empty); `overwrite_*` actions read `options["id"]`
unconditionally before testing the `"type"` marker, and fall through —
leaving the raw mapping in place — when the marker is neither the
string `"1"` nor the string `"0"`. -/
def fromDataExtra (ctx : EntryCtx)
    (options : Option (List (String × Value))) : Except Unit ExtraResult :=
  match ctx.action, options with
  | some act, some d =>
      if d.isEmpty then .ok (.raw options)
      else if act = .member_prune then do
        let fields ← d.mapM (fun kv => match pyToInt kv.2 with
          | some n => .ok (kv.1, n)
          | none => .error ())
        .ok (.proxyPrune fields)
      else if act = .member_move ∨ act = .message_delete then do
        let chRaw ← reqVal (dictGet d "channel_id")
        let chId ← match pyToInt chRaw with
          | some n => .ok n | none => .error ()
        let countRaw ← reqVal (dictGet d "count")
        let count ← match pyToInt countRaw with
          | some n => .ok n | none => .error ()
        .ok (.proxyMoveOrDelete count ((getChannel ctx chId).getD (vObject chId none)))
      else if act = .member_disconnect then do
        let countRaw ← reqVal (dictGet d "count")
        let count ← match pyToInt countRaw with
          | some n => .ok n | none => .error ()
        .ok (.proxyDisconnect count)
      else if strEndsWith (actionName act) "pin" then do
        let chRaw ← reqVal (dictGet d "channel_id")
        let chId ← match pyToInt chRaw with
          | some n => .ok n | none => .error ()
        let msgRaw ← reqVal (dictGet d "message_id")
        let msgId ← match pyToInt msgRaw with
          | some n => .ok n | none => .error ()
        .ok (.proxyPin ((getChannel ctx chId).getD (vObject chId none)) msgId)
      else if strStartsWith (actionName act) "overwrite_" then do
        let idRaw ← reqVal (dictGet d "id")
        let instanceId ← match pyToInt idRaw with
          | some n => .ok n | none => .error ()
        let theType := dictGet d "type"
        if (match theType with | some t => pyEqStr t "1" | none => false)
        then .ok (.memberE ((getMemberOrUser ctx instanceId).getD vNull))
        else if (match theType with | some t => pyEqStr t "0" | none => false)
        then match getRole ctx instanceId with
          | some r => .ok (.roleE r)
          | none =>
              .ok (.roleE (vObject instanceId (some ((dictGet d "role_name").getD vNull))))
        else .ok (.raw options)
      else if strStartsWith (actionName act) "stage_instance" then do
        let chRaw ← reqVal (dictGet d "channel_id")
        let chId ← match pyToInt chRaw with
          | some n => .ok n | none => .error ()
        .ok (.proxyStage ((getChannel ctx chId).getD (vObject chId none)))
      else .ok (.raw options)
  | _, _ => .ok (.raw options)

/-- The mutable per-entry state behind the lazy properties: the raw
change list (`self._changes`, deleted on first `changes` access) and
the `cached_property` slots of `changes`, `before` and `after`. -/
structure EntryState where
  rawChanges : Option (List Change)
  changesCache : Option (Diff × Diff)
  beforeCache : Option Diff
  afterCache : Option Diff

/-- Reading `entry._changes` (raises `AttributeError` once deleted). -/
def getRawChanges (s : EntryState) : Except Unit (List Change) :=
  match s.rawChanges with
  | some l => .ok l
  | none => .error ()

/-- The `changes` cached property (src/discord/audit_logs.py:639-644):
return the cached pair, or build it from the raw list, delete the raw
list, and cache it. -/
def accessChanges (env : EnumEnv) (ctx : EntryCtx) (s : EntryState) :
    Except Unit ((Diff × Diff) × EntryState) :=
  match s.changesCache with
  | some c => .ok (c, s)
  | none =>
      match s.rawChanges with
      | none => .error ()
      | some l => do
          let c ← changesInit env ctx l
          .ok (c, { s with rawChanges := none, changesCache := some c })

/-- The `before` cached property (src/discord/audit_logs.py:646-649). -/
def accessBefore (env : EnumEnv) (ctx : EntryCtx) (s : EntryState) :
    Except Unit (Diff × EntryState) :=
  match s.beforeCache with
  | some b => .ok (b, s)
  | none => do
      let cs ← accessChanges env ctx s
      .ok (cs.1.1, { cs.2 with beforeCache := some cs.1.1 })

/-- The `after` cached property (src/discord/audit_logs.py:651-654). -/
def accessAfter (env : EnumEnv) (ctx : EntryCtx) (s : EntryState) :
    Except Unit (Diff × EntryState) :=
  match s.afterCache with
  | some a => .ok (a, s)
  | none => do
      let cs ← accessChanges env ctx s
      .ok (cs.1.2, { cs.2 with afterCache := some cs.1.2 })

/-- Which of the three lazy accessors is invoked. -/
inductive Accessor where
  | changes | before | after
deriving DecidableEq

/-- Invoke one accessor, keeping only the state. -/
def runAccessor (env : EnumEnv) (ctx : EntryCtx) (s : EntryState) :
    Accessor → Except Unit EntryState
  | .changes => (accessChanges env ctx s).map (·.2)
  | .before => (accessBefore env ctx s).map (·.2)
  | .after => (accessAfter env ctx s).map (·.2)

/-- Invoke a sequence of accessors. -/
def runSeq (env : EnumEnv) (ctx : EntryCtx) :
    EntryState → List Accessor → Except Unit EntryState
  | s, [] => .ok s
  | s, k :: rest => do
      let s' ← runAccessor env ctx s k
      runSeq env ctx s' rest

/-- Model of `AuditLogEntry._convert_target_invite`
(src/discord/audit_logs.py:668-690): pick `self.before` when the
action is `invite_delete` and `self.after` otherwise, read the
invite-shaped fields (`max_age`, `max_uses`, `code`, `temporary`,
`uses`, `channel` — each raising on absence), and attach `inviter`
only when present, tolerating its absence. -/
def convertTargetInvite (env : EnumEnv) (ctx : EntryCtx) (s : EntryState) :
    Except Unit (Value × EntryState) := do
  let cs ← if ctx.action = some .invite_delete
           then accessBefore env ctx s
           else accessAfter env ctx s
  let changeset := cs.1
  let maxAge ← reqVal (getAttr changeset "max_age")
  let maxUses ← reqVal (getAttr changeset "max_uses")
  let code ← reqVal (getAttr changeset "code")
  let temporary ← reqVal (getAttr changeset "temporary")
  let uses ← reqVal (getAttr changeset "uses")
  let channel ← reqVal (getAttr changeset "channel")
  let inviter := getAttr changeset "inviter"
  .ok (vInvite maxAge maxUses code temporary uses channel inviter, cs.2)

/-- Does the claim's "opaque reference object" describe this value? -/
def isObjectRef : Value → Bool
  | vObject _ _ => true
  | _ => false

/-- Sample enum environment for concrete instances: the
scheduled-event location type knows ordinals 1-3 with `external = 3`,
channel types 0-16, sticker types 1-2. -/
def sampleEnv : EnumEnv where
  known := fun e v =>
    match e, v with
    | "ScheduledEventLocationType", vInt n => n = 1 || n = 2 || n = 3
    | "ChannelType", vInt n => 0 ≤ n && n ≤ 16
    | "StickerType", vInt n => n = 1 || n = 2
    | _, _ => false
  seltExternal := 3

/-- Sample entry context: a guild with one cached channel (10), one
role (20, "mod"), one member (30), one fallback user (40). -/
def sampleCtx : EntryCtx where
  guildId := 100
  channels := [10]
  roles := [(20, "mod")]
  members := [30]
  stateGuilds := [100]
  users := [40]
  targetId := some 55
  action := some .guild_update

/-- Sample context with every cache empty. -/
def emptyCtx : EntryCtx where
  guildId := 100
  channels := []
  roles := []
  members := []
  stateGuilds := []
  users := []
  targetId := none
  action := some .guild_update

/-- The attribute resolved for a raw key on the generic path: the
table's rename when registered with one, the raw key otherwise. -/
def resolvedName (k : String) : String :=
  match transformInfo k with
  | some (some r, _) => r
  | _ => k

/-- The attribute names a record with the given key can write (on
either bag) during the `__init__` loop. -/
def writesAttr (k : String) : List String :=
  if k = "$add" ∨ k = "$remove" then ["roles"]
  else if k ∈ triggerAddKeys ∨ k ∈ triggerRemoveKeys then
    ["trigger_metadata"]
  else [resolvedName k]

@[simp] theorem bindOk {α β : Type} (a : α) (f : α → Except Unit β) :
    ((Except.ok a : Except Unit α) >>= f) = f a := rfl

@[simp] theorem bindErr {α β : Type} (f : α → Except Unit β) :
    ((Except.error () : Except Unit α) >>= f) = Except.error () := rfl

@[simp] theorem mapOk {α β : Type} (f : α → β) (a : α) :
    (Except.ok a : Except Unit α).map f = Except.ok (f a) := rfl

@[simp] theorem mapErr {α β : Type} (f : α → β) :
    (Except.error () : Except Unit α).map f = Except.error () := rfl

theorem getAttr_setAttr_self (d : Diff) (k : String) (v : Value) :
    getAttr (setAttr d k v) k = some v := by
  induction d with
  | nil => simp [setAttr, getAttr]
  | cons hd tl ih =>
      by_cases h : hd.1 = k <;> simp [setAttr, getAttr, h, ih]

theorem getAttr_setAttr_ne (d : Diff) (k x : String) (v : Value)
    (h : x ≠ k) : getAttr (setAttr d k v) x = getAttr d x := by
  induction d with
  | nil => simp [setAttr, getAttr, Ne.symm h]
  | cons hd tl ih =>
      by_cases h' : hd.1 = k
      · simp [setAttr, getAttr, h', Ne.symm h]
      · simp [setAttr, getAttr, h', ih]

theorem hasAttr_setAttr_self (d : Diff) (k : String) (v : Value) :
    hasAttr (setAttr d k v) k = true := by
  simp [hasAttr, getAttr_setAttr_self]

theorem hasAttr_setAttr_mono (d : Diff) (k x : String) (v : Value)
    (h : hasAttr d x = true) : hasAttr (setAttr d k v) x = true := by
  by_cases hx : x = k
  · subst hx; simp [hasAttr, getAttr_setAttr_self]
  · simpa [hasAttr, getAttr_setAttr_ne d k x v hx] using h

theorem leChars_total (a b : List Char) :
    leChars a b = true ∨ leChars b a = true := by
  induction a generalizing b with
  | nil => left; simp [leChars]
  | cons x xs ih =>
      cases b with
      | nil => right; simp [leChars]
      | cons y ys =>
          rcases lt_trichotomy x y with h | h | h
          · left; simp [leChars, h]
          · subst h
            rcases ih ys with h' | h'
            · left; simp [leChars, h']
            · right; simp [leChars, h']
          · right; simp [leChars, h]

theorem leChars_trans {a b c : List Char} (h₁ : leChars a b = true)
    (h₂ : leChars b c = true) : leChars a c = true := by
  induction a generalizing b c with
  | nil => simp [leChars]
  | cons x xs ih =>
      cases b with
      | nil => simp [leChars] at h₁
      | cons y ys =>
          cases c with
          | nil => simp [leChars] at h₂
          | cons z zs =>
              rcases lt_trichotomy x y with hxy | hxy | hxy
              · rcases lt_trichotomy y z with hyz | hyz | hyz
                · simp [leChars, lt_trans hxy hyz]
                · subst hyz; simp [leChars, hxy]
                · simp [leChars, hyz, not_lt_of_gt hyz] at h₂
              · subst hxy
                rcases lt_trichotomy x z with hyz | hyz | hyz
                · simp [leChars, hyz]
                · subst hyz
                  simp only [leChars, lt_irrefl, if_false] at h₁ h₂ ⊢
                  exact ih h₁ h₂
                · simp [leChars, hyz, not_lt_of_gt hyz] at h₂
              · simp [leChars, hxy, not_lt_of_gt hxy] at h₁

theorem leChars_antisymm {a b : List Char} (h₁ : leChars a b = true)
    (h₂ : leChars b a = true) : a = b := by
  induction a generalizing b with
  | nil =>
      cases b with
      | nil => rfl
      | cons y ys => simp [leChars] at h₂
  | cons x xs ih =>
      cases b with
      | nil => simp [leChars] at h₁
      | cons y ys =>
          rcases lt_trichotomy x y with hxy | hxy | hxy
          · simp [leChars, hxy, not_lt_of_gt hxy] at h₂
          · subst hxy
            simp only [leChars, lt_irrefl, if_false] at h₁ h₂
            exact congrArg (x :: ·) (ih h₁ h₂)
          · simp [leChars, hxy, not_lt_of_gt hxy] at h₁

instance : IsTotal Change keyLE :=
  ⟨fun x y => leChars_total x.key.toList y.key.toList⟩

instance : IsTrans Change keyLE :=
  ⟨fun _ _ _ h₁ h₂ => leChars_trans h₁ h₂⟩

/-- Strict key order: `keyLE` with distinct keys. -/
def keyLT (x y : Change) : Prop := keyLE x y ∧ x.key ≠ y.key

instance : IsAntisymm Change keyLT :=
  ⟨fun x y h₁ h₂ => by
    have hd : x.key.data = y.key.data := leChars_antisymm h₁.1 h₂.1
    exact absurd (String.ext hd) h₁.2⟩

theorem sorted_keyLT_of_sorted_nodup {l : List Change}
    (hs : l.Sorted keyLE) (hn : (l.map Change.key).Nodup) :
    l.Sorted keyLT := by
  have hne : l.Pairwise (fun a b : Change => a.key ≠ b.key) :=
    (List.pairwise_map).mp hn
  exact hs.and hne

theorem insertionSort_eq_of_perm_nodup {l₁ l₂ : List Change}
    (hp : l₁.Perm l₂) (hn : (l₁.map Change.key).Nodup) :
    List.insertionSort keyLE l₁ = List.insertionSort keyLE l₂ := by
  have hp₁ : (List.insertionSort keyLE l₁).Perm l₁ :=
    List.perm_insertionSort keyLE l₁
  have hp₂ : (List.insertionSort keyLE l₂).Perm l₂ :=
    List.perm_insertionSort keyLE l₂
  have hperm : (List.insertionSort keyLE l₁).Perm
      (List.insertionSort keyLE l₂) :=
    hp₁.trans (hp.trans hp₂.symm)
  have hn₁ : ((List.insertionSort keyLE l₁).map Change.key).Nodup :=
    ((hp₁.map Change.key).nodup_iff).mpr hn
  have hn₂ : ((List.insertionSort keyLE l₂).map Change.key).Nodup :=
    ((hperm.map Change.key).nodup_iff).mp hn₁
  exact List.eq_of_perm_of_sorted hperm
    (sorted_keyLT_of_sorted_nodup (List.sorted_insertionSort keyLE l₁) hn₁)
    (sorted_keyLT_of_sorted_nodup (List.sorted_insertionSort keyLE l₂) hn₂)

/-- C2 (counterexample): two change lists that are permutations of each
other — two records sharing the key `name`, in the two input orders —
decode to different `before`/`after` bags: the stable sort preserves
the relative order of equal keys, and the later record overwrites the
earlier one's value, so the decoded result does depend on the input
order when keys repeat. -/
theorem changes_decode_perm_dependent_cex :
    (([⟨"name", some (vStr "a"), some (vStr "p")⟩,
       ⟨"name", some (vStr "b"), some (vStr "q")⟩] : List Change).Perm
      [⟨"name", some (vStr "b"), some (vStr "q")⟩,
       ⟨"name", some (vStr "a"), some (vStr "p")⟩])
    ∧ changesInit sampleEnv sampleCtx
        [⟨"name", some (vStr "a"), some (vStr "p")⟩,
         ⟨"name", some (vStr "b"), some (vStr "q")⟩]
      = Except.ok ([("name", vStr "b")], [("name", vStr "q")])
    ∧ changesInit sampleEnv sampleCtx
        [⟨"name", some (vStr "b"), some (vStr "q")⟩,
         ⟨"name", some (vStr "a"), some (vStr "p")⟩]
      = Except.ok ([("name", vStr "a")], [("name", vStr "p")])
    ∧ changesInit sampleEnv sampleCtx
        [⟨"name", some (vStr "a"), some (vStr "p")⟩,
         ⟨"name", some (vStr "b"), some (vStr "q")⟩]
      ≠ changesInit sampleEnv sampleCtx
        [⟨"name", some (vStr "b"), some (vStr "q")⟩,
         ⟨"name", some (vStr "a"), some (vStr "p")⟩] := by
  refine ⟨List.Perm.swap _ _ _, rfl, rfl, ?_⟩
  intro h
  have h₂ : (Except.ok (([("name", vStr "b")], [("name", vStr "q")]) :
      Diff × Diff) : Except Unit (Diff × Diff))
      = Except.ok ([("name", vStr "a")], [("name", vStr "p")]) := h
  simp [Diff] at h₂

/-- C2 (amended): decoding is permutation-invariant provided the raw
field keys are pairwise distinct; with a repeated key the stable sort
preserves input order among its records and the last writer wins, so
the unrestricted claim fails. -/
theorem changes_decode_perm_invariant (env : EnumEnv) (ctx : EntryCtx)
    (l₁ l₂ : List Change) (hp : l₁.Perm l₂)
    (hn : (l₁.map Change.key).Nodup) :
    changesInit env ctx l₁ = changesInit env ctx l₂ := by
  unfold changesInit
  rw [insertionSort_eq_of_perm_nodup hp hn]

/-- Witness for C2 (amended) at a concrete pair of permuted two-record
lists with distinct keys. -/
theorem changes_decode_perm_invariant_witness :
    changesInit sampleEnv sampleCtx
      [⟨"afk_channel_id", some (vStr "10"), none⟩,
       ⟨"name", none, some (vStr "n")⟩]
    = changesInit sampleEnv sampleCtx
      [⟨"name", none, some (vStr "n")⟩,
       ⟨"afk_channel_id", some (vStr "10"), none⟩] :=
  changes_decode_perm_invariant sampleEnv sampleCtx _ _
    (List.Perm.swap _ _ _) (by decide)

/-- C8: on an entry whose `changes` has not been materialized yet
(cache slot empty, raw list present) and whose raw list decodes to
`c`, the first `changes` access returns `c` and moves to a state where
the raw list is deleted (reading it raises) — and a second access on
that state returns the very same `c` without touching the state
again. -/
theorem changes_access_memoizes (env : EnumEnv) (ctx : EntryCtx)
    (s : EntryState) (l : List Change) (c : Diff × Diff)
    (hc : s.changesCache = none) (hr : s.rawChanges = some l)
    (hinit : changesInit env ctx l = .ok c) :
    accessChanges env ctx s
      = .ok (c, { s with rawChanges := none, changesCache := some c })
    ∧ getRawChanges { s with rawChanges := none, changesCache := some c }
      = .error ()
    ∧ accessChanges env ctx
        { s with rawChanges := none, changesCache := some c }
      = .ok (c, { s with rawChanges := none, changesCache := some c }) := by
  refine ⟨?_, ?_, ?_⟩
  · unfold accessChanges
    rw [hc, hr]
    simp [hinit]
  · simp [getRawChanges]
  · unfold accessChanges
    simp

/-- Witness for C8 at a one-record raw list. -/
theorem changes_access_memoizes_witness :
    accessChanges sampleEnv sampleCtx
      ⟨some [⟨"name", none, some (vStr "x")⟩], none, none, none⟩
      = .ok ((([("name", vNull)], [("name", vStr "x")]) : Diff × Diff),
             ⟨none, some ([("name", vNull)], [("name", vStr "x")]),
              none, none⟩)
    ∧ getRawChanges
        ⟨none, some ([("name", vNull)], [("name", vStr "x")]), none, none⟩
      = .error ()
    ∧ accessChanges sampleEnv sampleCtx
        ⟨none, some ([("name", vNull)], [("name", vStr "x")]), none, none⟩
      = .ok ((([("name", vNull)], [("name", vStr "x")]) : Diff × Diff),
             ⟨none, some ([("name", vNull)], [("name", vStr "x")]),
              none, none⟩) :=
  changes_access_memoizes sampleEnv sampleCtx _ _ _ rfl rfl rfl

/-- Reachability invariant for the lazy accessors: `changes` resolves
to `c`, and any populated `before`/`after` cache slot agrees with the
corresponding component of `c`. -/
def cacheInv (env : EnumEnv) (ctx : EntryCtx) (c : Diff × Diff)
    (s : EntryState) : Prop :=
  (∃ s', accessChanges env ctx s = .ok (c, s'))
  ∧ (s.beforeCache = none ∨ s.beforeCache = some c.1)
  ∧ (s.afterCache = none ∨ s.afterCache = some c.2)

theorem accessChanges_ok_state {env : EnumEnv} {ctx : EntryCtx}
    {s s' : EntryState} {c : Diff × Diff}
    (h : accessChanges env ctx s = .ok (c, s')) :
    s'.changesCache = some c ∧ s'.beforeCache = s.beforeCache
    ∧ s'.afterCache = s.afterCache := by
  unfold accessChanges at h
  cases hc : s.changesCache with
  | some c₀ =>
      rw [hc] at h
      simp only [Except.ok.injEq, Prod.mk.injEq] at h
      obtain ⟨h₁, h₂⟩ := h
      subst h₁
      subst h₂
      exact ⟨hc, rfl, rfl⟩
  | none =>
      rw [hc] at h
      cases hr : s.rawChanges with
      | none => rw [hr] at h; simp at h
      | some l =>
          rw [hr] at h
          simp only [] at h
          cases hi : changesInit env ctx l with
          | error e =>
              rw [hi] at h
              cases e
              simp at h
          | ok c₁ =>
              rw [hi] at h
              simp only [bindOk, Except.ok.injEq, Prod.mk.injEq] at h
              obtain ⟨h₁, h₂⟩ := h
              subst h₁
              subst h₂
              exact ⟨rfl, rfl, rfl⟩

theorem cacheInv_init {env : EnumEnv} {ctx : EntryCtx} {l : List Change}
    {c : Diff × Diff} (hinit : changesInit env ctx l = .ok c) :
    cacheInv env ctx c ⟨some l, none, none, none⟩ := by
  refine ⟨⟨⟨none, some c, none, none⟩, ?_⟩, Or.inl rfl, Or.inl rfl⟩
  unfold accessChanges
  simp [hinit]

theorem cacheInv_step {env : EnumEnv} {ctx : EntryCtx} {c : Diff × Diff}
    {s s' : EntryState} {k : Accessor} (hinv : cacheInv env ctx c s)
    (hstep : runAccessor env ctx s k = .ok s') :
    cacheInv env ctx c s' := by
  obtain ⟨⟨s₁, hch⟩, hb, ha⟩ := hinv
  obtain ⟨hcc, hbc, hac⟩ := accessChanges_ok_state hch
  have hch₁ : accessChanges env ctx s₁ = .ok (c, s₁) := by
    unfold accessChanges; rw [hcc]
  cases k with
  | changes =>
      simp only [runAccessor, hch, mapOk, Except.ok.injEq] at hstep
      subst hstep
      refine ⟨⟨s₁, hch₁⟩, ?_, ?_⟩
      · rw [hbc]; exact hb
      · rw [hac]; exact ha
  | before =>
      simp only [runAccessor] at hstep
      unfold accessBefore at hstep
      cases hbs : s.beforeCache with
      | some b =>
          rw [hbs] at hstep
          simp only [mapOk, Except.ok.injEq] at hstep
          subst hstep
          exact ⟨⟨s₁, hch⟩, hb, ha⟩
      | none =>
          rw [hbs] at hstep
          simp only [hch, bindOk, mapOk, Except.ok.injEq] at hstep
          subst hstep
          refine ⟨⟨{ s₁ with beforeCache := some c.1 }, ?_⟩, Or.inr rfl, ?_⟩
          · unfold accessChanges
            simp [hcc]
          · show s₁.afterCache = none ∨ s₁.afterCache = some c.2
            rw [hac]; exact ha
  | after =>
      simp only [runAccessor] at hstep
      unfold accessAfter at hstep
      cases has : s.afterCache with
      | some a =>
          rw [has] at hstep
          simp only [mapOk, Except.ok.injEq] at hstep
          subst hstep
          exact ⟨⟨s₁, hch⟩, hb, ha⟩
      | none =>
          rw [has] at hstep
          simp only [hch, bindOk, mapOk, Except.ok.injEq] at hstep
          subst hstep
          refine ⟨⟨{ s₁ with afterCache := some c.2 }, ?_⟩, ?_, Or.inr rfl⟩
          · unfold accessChanges
            simp [hcc]
          · show s₁.beforeCache = none ∨ s₁.beforeCache = some c.1
            rw [hbc]; exact hb

theorem cacheInv_runSeq {env : EnumEnv} {ctx : EntryCtx}
    {c : Diff × Diff} {s s₁ : EntryState} {pre : List Accessor}
    (hinv : cacheInv env ctx c s)
    (hrun : runSeq env ctx s pre = .ok s₁) :
    cacheInv env ctx c s₁ := by
  induction pre generalizing s with
  | nil => cases hrun; exact hinv
  | cons k rest ih =>
      simp only [runSeq] at hrun
      cases hstep : runAccessor env ctx s k with
      | error e => rw [hstep] at hrun; cases hrun
      | ok s' =>
          rw [hstep] at hrun
          simp at hrun
          exact ih (cacheInv_step hinv hstep) hrun

theorem before_val_of_inv {env : EnumEnv} {ctx : EntryCtx}
    {c : Diff × Diff} {s : EntryState} (hinv : cacheInv env ctx c s) :
    (accessBefore env ctx s).map (·.1) = .ok c.1 := by
  obtain ⟨⟨s₁, hch⟩, hb, _⟩ := hinv
  unfold accessBefore
  cases hbs : s.beforeCache with
  | some b =>
      rcases hb with hb | hb
      · rw [hbs] at hb; cases hb
      · rw [hbs] at hb
        injection hb with hb
        subst hb
        simp
  | none => simp [hch]

theorem after_val_of_inv {env : EnumEnv} {ctx : EntryCtx}
    {c : Diff × Diff} {s : EntryState} (hinv : cacheInv env ctx c s) :
    (accessAfter env ctx s).map (·.1) = .ok c.2 := by
  obtain ⟨⟨s₁, hch⟩, _, ha⟩ := hinv
  unfold accessAfter
  cases has : s.afterCache with
  | some a =>
      rcases ha with ha | ha
      · rw [has] at ha; cases ha
      · rw [has] at ha
        injection ha with ha
        subst ha
        simp
  | none => simp [hch]

/-- C9: starting from a fresh entry (raw list present, all cache slots
empty) whose raw list decodes to the pair `c`, after invoking any
sequence of the three accessors in any order, `before` returns exactly
`c.1`, `after` exactly `c.2` and `changes` exactly `c` — the
`before`/`after` accessors always hand out precisely the components of
the entry's `changes` pair, whichever accessor ran first. -/
theorem before_after_are_changes_components (env : EnumEnv)
    (ctx : EntryCtx) (l : List Change) (c : Diff × Diff)
    (pre : List Accessor) (s₁ : EntryState)
    (hinit : changesInit env ctx l = .ok c)
    (hrun : runSeq env ctx ⟨some l, none, none, none⟩ pre = .ok s₁) :
    (accessBefore env ctx s₁).map (·.1) = .ok c.1
    ∧ (accessAfter env ctx s₁).map (·.1) = .ok c.2
    ∧ (accessChanges env ctx s₁).map (·.1) = .ok c := by
  have hinv : cacheInv env ctx c s₁ :=
    cacheInv_runSeq (cacheInv_init hinit) hrun
  refine ⟨before_val_of_inv hinv, after_val_of_inv hinv, ?_⟩
  obtain ⟨⟨s₂, hch⟩, -, -⟩ := hinv
  simp [hch]

/-- Witness for C9: invoke `before` first, then check all three. -/
theorem before_after_are_changes_components_witness :
    (accessBefore sampleEnv sampleCtx
      ⟨none, some ([("name", vNull)], [("name", vStr "x")]),
       some [("name", vNull)], none⟩).map (·.1)
      = .ok ([("name", vNull)] : Diff)
    ∧ (accessAfter sampleEnv sampleCtx
      ⟨none, some ([("name", vNull)], [("name", vStr "x")]),
       some [("name", vNull)], none⟩).map (·.1)
      = .ok ([("name", vStr "x")] : Diff)
    ∧ (accessChanges sampleEnv sampleCtx
      ⟨none, some ([("name", vNull)], [("name", vStr "x")]),
       some [("name", vNull)], none⟩).map (·.1)
      = .ok (([("name", vNull)], [("name", vStr "x")]) : Diff × Diff) :=
  before_after_are_changes_components sampleEnv sampleCtx
    [⟨"name", none, some (vStr "x")⟩]
    ([("name", vNull)], [("name", vStr "x")])
    [.before] _ rfl rfl

/-- C7: for an entry with an invite-typed action, the target invite is
assembled from the `before` diff's `max_age`/`max_uses`/`code`/
`temporary`/`uses`/`channel` fields exactly when the action is
`invite_delete`, and from the `after` diff otherwise; the inviter slot
receives the selected diff's `inviter` attribute when present and is
empty — without raising — when absent. -/
theorem invite_target_from_diff (env : EnumEnv) (ctx : EntryCtx)
    (s sb sa : EntryState) (act : ALAction) (b a : Diff)
    (v₁ v₂ v₃ v₄ v₅ v₆ : Value)
    (hact : ctx.action = some act)
    (hmem : act = .invite_create ∨ act = .invite_update
      ∨ act = .invite_delete)
    (hb : accessBefore env ctx s = .ok (b, sb))
    (ha : accessAfter env ctx s = .ok (a, sa))
    (h₁ : getAttr (if act = .invite_delete then b else a) "max_age"
      = some v₁)
    (h₂ : getAttr (if act = .invite_delete then b else a) "max_uses"
      = some v₂)
    (h₃ : getAttr (if act = .invite_delete then b else a) "code"
      = some v₃)
    (h₄ : getAttr (if act = .invite_delete then b else a) "temporary"
      = some v₄)
    (h₅ : getAttr (if act = .invite_delete then b else a) "uses"
      = some v₅)
    (h₆ : getAttr (if act = .invite_delete then b else a) "channel"
      = some v₆) :
    convertTargetInvite env ctx s
      = .ok (vInvite v₁ v₂ v₃ v₄ v₅ v₆
          (getAttr (if act = .invite_delete then b else a) "inviter"),
        if act = .invite_delete then sb else sa) := by
  unfold convertTargetInvite
  by_cases hdel : act = .invite_delete
  · subst hdel
    simp only [if_pos] at h₁ h₂ h₃ h₄ h₅ h₆
    simp [hact, hb, reqVal, h₁, h₂, h₃, h₄, h₅, h₆]
  · have hne : ctx.action ≠ some ALAction.invite_delete := by
      rw [hact]
      intro h
      exact hdel (Option.some.inj h)
    simp only [if_neg hdel] at h₁ h₂ h₃ h₄ h₅ h₆
    simp [hne, ha, reqVal, h₁, h₂, h₃, h₄, h₅, h₆, hdel]

/-- Witness for C7: an `invite_delete` entry whose `before` diff holds
the six invite fields and no inviter. -/
theorem invite_target_from_diff_witness :
    convertTargetInvite sampleEnv
      { emptyCtx with action := some .invite_delete }
      ⟨none, none,
       some [("max_age", vInt 1), ("max_uses", vInt 2),
             ("code", vStr "c"), ("temporary", vBool false),
             ("uses", vInt 0), ("channel", vChannel 10)],
       some []⟩
      = .ok (vInvite (vInt 1) (vInt 2) (vStr "c") (vBool false) (vInt 0)
          (vChannel 10) none,
        ⟨none, none,
         some [("max_age", vInt 1), ("max_uses", vInt 2),
               ("code", vStr "c"), ("temporary", vBool false),
               ("uses", vInt 0), ("channel", vChannel 10)],
         some []⟩) :=
  invite_target_from_diff sampleEnv
    { emptyCtx with action := some .invite_delete } _ _ _
    ALAction.invite_delete
    [("max_age", vInt 1), ("max_uses", vInt 2),
     ("code", vStr "c"), ("temporary", vBool false),
     ("uses", vInt 0), ("channel", vChannel 10)]
    [] _ _ _ _ _ _
    rfl (Or.inr (Or.inr rfl)) rfl rfl rfl rfl rfl rfl rfl rfl

/-- C10 (counterexample): an `overwrite_update` entry whose options
carry `type = 0` (an integer, so neither the string `"1"` nor `"0"`)
but no `id` key does not leave `extra` as the raw mapping — the branch
reads `options["id"]` before inspecting `type`, so it raises a
`KeyError` instead. -/
theorem overwrite_extra_missing_id_cex :
    fromDataExtra { emptyCtx with action := some .overwrite_update }
      (some [("type", vInt 0)]) = .error ()
    ∧ (Except.error () : Except Unit ExtraResult)
      ≠ .ok (.raw (some [("type", vInt 0)])) := by
  refine ⟨rfl, ?_⟩
  intro h
  cases h

/-- C10 (amended): for an `overwrite_*` entry whose raw options carry
a `type` value that is neither the string `"1"` nor the string `"0"`
(including a missing key), `extra` is left as the raw options mapping —
provided the mapping is empty (the branch is skipped on a falsy dict)
or carries an `id` whose value coerces to an integer, since
`options["id"]` is read before the `type` test and raises without it. -/
theorem overwrite_extra_left_raw (ctx : EntryCtx)
    (d : List (String × Value)) (act : ALAction)
    (hact : ctx.action = some act)
    (hov : act = .overwrite_create ∨ act = .overwrite_update
      ∨ act = .overwrite_delete)
    (hty : (match dictGet d "type" with
      | some t => pyEqStr t "1" | none => false) = false)
    (hty0 : (match dictGet d "type" with
      | some t => pyEqStr t "0" | none => false) = false)
    (hid : d = [] ∨ ∃ iv n, dictGet d "id" = some iv ∧ pyToInt iv = some n) :
    fromDataExtra ctx (some d) = .ok (.raw (some d)) := by
  rcases hov with rfl | rfl | rfl
  · by_cases hemp : d.isEmpty
    · simp [fromDataExtra, hact, hemp]
    · rcases hid with rfl | ⟨iv, n, hiv, hn⟩
      · simp [List.isEmpty] at hemp
      · simp [fromDataExtra, hact, hemp, hiv, hn, hty, hty0, reqVal,
          show strEndsWith (actionName ALAction.overwrite_create) "pin" = false from rfl,
          show strStartsWith (actionName ALAction.overwrite_create) "overwrite_" = true from rfl]
  · by_cases hemp : d.isEmpty
    · simp [fromDataExtra, hact, hemp]
    · rcases hid with rfl | ⟨iv, n, hiv, hn⟩
      · simp [List.isEmpty] at hemp
      · simp [fromDataExtra, hact, hemp, hiv, hn, hty, hty0, reqVal,
          show strEndsWith (actionName ALAction.overwrite_update) "pin" = false from rfl,
          show strStartsWith (actionName ALAction.overwrite_update) "overwrite_" = true from rfl]
  · by_cases hemp : d.isEmpty
    · simp [fromDataExtra, hact, hemp]
    · rcases hid with rfl | ⟨iv, n, hiv, hn⟩
      · simp [List.isEmpty] at hemp
      · simp [fromDataExtra, hact, hemp, hiv, hn, hty, hty0, reqVal,
          show strEndsWith (actionName ALAction.overwrite_delete) "pin" = false from rfl,
          show strStartsWith (actionName ALAction.overwrite_delete) "overwrite_" = true from rfl]

/-- Witness for C10 (amended): `type = 0` (integer) with an `id`
present leaves the raw options in place. -/
theorem overwrite_extra_left_raw_witness :
    fromDataExtra { emptyCtx with action := some .overwrite_create }
      (some [("type", vInt 0), ("id", vStr "7")])
      = .ok (.raw (some [("type", vInt 0), ("id", vStr "7")])) :=
  overwrite_extra_left_raw _ _ ALAction.overwrite_create rfl
    (Or.inl rfl) rfl rfl (Or.inr ⟨vStr "7", 7, rfl, rfl⟩)

/-- C4 (counterexample): the member/owner/inviter transform does not
fall back to an opaque reference object on a cache miss — when neither
the guild member cache nor the fallback user table knows the id,
`_transform_member_id` returns `None` (`_get_member` is
`get_member(id) or users.get(id)` with no `Object` fallback). -/
theorem member_transform_miss_null_cex :
    applyT .memberIdT sampleEnv emptyCtx (vInt 5) = .ok vNull
    ∧ isObjectRef vNull = false :=
  ⟨rfl, rfl⟩

/-- C4 (amended): on a cache-lookup miss none of the id-resolving
transforms raises; the channel, role-list and overwrite-target
transforms degrade to an id-carrying `Object`, but the
member/owner/inviter transform degrades to `None` when both the member
cache and the user table miss, and the guild transform degrades to
`None` on a miss — not to reference objects. -/
theorem transform_miss_fallback (env : EnumEnv) (ctx : EntryCtx)
    (n al dn : Int)
    (hch : n ∉ ctx.channels) (hrl : ctx.roles.lookup n = none)
    (hmem : n ∉ ctx.members) (hus : n ∉ ctx.users)
    (hsg : n ∉ ctx.stateGuilds) :
    applyT .channelT env ctx (vInt n) = .ok (vObject n none)
    ∧ applyT .rolesT env ctx (vList [vInt n])
      = .ok (vList [vObject n none])
    ∧ applyT .overwritesT env ctx (vList [vDict
        [("allow", vInt al), ("deny", vInt dn),
         ("type", vInt 0), ("id", vInt n)]])
      = .ok (vList [vPair (vObject n none) (vOverwrite al dn)])
    ∧ applyT .memberIdT env ctx (vInt n) = .ok vNull
    ∧ applyT .guildIdT env ctx (vInt n) = .ok vNull := by
  refine ⟨?_, ?_, ?_, ?_, ?_⟩
  · simp [applyT, transformChannelOne, pyToInt, getChannel, hch]
  · simp [applyT, pyToInt, getRole, hrl, List.mapM.loop]
  · simp [applyT, transformOverwriteOne, dictGet, pyToInt, pyEqInt,
      getRole, hrl, List.mapM.loop]
  · simp [applyT, pyToInt, getMemberOrUser, hmem, hus]
  · simp [applyT, getStateGuild, hsg]

theorem handleRole_ok_shape {ctx : EntryCtx} {f s : Diff} {ev : Value}
    {fs : Diff × Diff} (h : handleRole ctx f s ev = .ok fs) :
    ∃ data, fs = ((if hasAttr f "roles" = true then f
                   else setAttr f "roles" (vList [])),
                  setAttr s "roles" (vList data)) := by
  unfold handleRole at h
  cases ev <;> simp only [bindOk, bindErr] at h <;> try cases h
  case vList xs =>
    cases hm : xs.mapM (resolveRoleStub ctx) with
    | error e => rw [hm] at h; cases e; simp at h
    | ok data =>
        rw [hm] at h
        simp only [bindOk, Except.ok.injEq] at h
        exact ⟨data, h.symm⟩

/-- Non-composite keys of the builder loop. -/
def genericKey (k : String) : Prop :=
  k ≠ "$add" ∧ k ≠ "$remove" ∧ k ∉ triggerAddKeys ∧ k ∉ triggerRemoveKeys

theorem processElem_generic_shape {env : EnumEnv} {ctx : EntryCtx}
    {st st' : Diff × Diff} {e : Change} (hg : genericKey e.key)
    (h : processElem env ctx st e = .ok st') :
    ∃ w₁ w₂, st' = (setAttr st.1 (resolvedName e.key) w₁,
                    setAttr st.2 (resolvedName e.key) w₂) := by
  obtain ⟨h₁, h₂, h₃, h₄⟩ := hg
  unfold processElem at h
  rw [if_neg h₁, if_neg h₂, if_neg h₃, if_neg h₄] at h
  simp only [] at h
  cases hb : genericValue env ctx
      (match transformInfo e.key with
        | some (_, t) => t
        | none => none) e.old_value with
  | error u => cases u; rw [hb] at h; simp at h
  | ok w₁ =>
      rw [hb] at h
      simp only [bindOk] at h
      cases ha : genericValue env ctx
          (match transformInfo e.key with
            | some (_, t) => t
            | none => none) e.new_value with
      | error u => cases u; rw [ha] at h; simp at h
      | ok w₂ =>
          rw [ha] at h
          simp only [bindOk, Except.ok.injEq] at h
          refine ⟨locWrap env st.1 (resolvedName e.key) w₁,
                  locWrap env st.2 (resolvedName e.key) w₂, ?_⟩
          rw [← h]
          rfl

theorem triggerAdd_facts :
    ∀ k ∈ triggerAddKeys, k ≠ "$add" ∧ k ≠ "$remove"
      ∧ k ∉ triggerRemoveKeys := by decide

theorem triggerRemove_facts :
    ∀ k ∈ triggerRemoveKeys, k ≠ "$add" ∧ k ≠ "$remove"
      ∧ k ∉ triggerAddKeys := by decide

theorem writesAttr_roles {k : String} (hk : k = "$add" ∨ k = "$remove") :
    writesAttr k = ["roles"] := by
  simp [writesAttr, hk]

theorem writesAttr_trigger {k : String}
    (hk : k ∈ triggerAddKeys ∨ k ∈ triggerRemoveKeys) :
    writesAttr k = ["trigger_metadata"] := by
  have hne : ¬(k = "$add" ∨ k = "$remove") := by
    rcases hk with hk | hk
    · have := triggerAdd_facts k hk
      rintro (rfl | rfl) <;> simp_all
    · have := triggerRemove_facts k hk
      rintro (rfl | rfl) <;> simp_all
  simp [writesAttr, hne, hk]

theorem writesAttr_generic {k : String} (hg : genericKey k) :
    writesAttr k = [resolvedName k] := by
  obtain ⟨h₁, h₂, h₃, h₄⟩ := hg
  have hne : ¬(k = "$add" ∨ k = "$remove") := by
    rintro (rfl | rfl) <;> simp_all
  have hnt : ¬(k ∈ triggerAddKeys ∨ k ∈ triggerRemoveKeys) := by
    rintro (hk | hk) <;> simp_all
  simp [writesAttr, hne, hnt]

/-- Master case analysis of one loop iteration: each record either
routes to a composite handler (whose writes touch only `roles` or
`trigger_metadata`, with the placeholder on the side the raw list came
from) or to the generic path, which writes exactly the resolved
attribute on both bags. -/
theorem processElem_shape {env : EnumEnv} {ctx : EntryCtx}
    {st st' : Diff × Diff} {e : Change}
    (h : processElem env ctx st e = .ok st') :
    (e.key = "$add" ∧ ∃ data,
      st' = ((if hasAttr st.1 "roles" = true then st.1
              else setAttr st.1 "roles" (vList [])),
             setAttr st.2 "roles" (vList data)))
    ∨ (e.key = "$remove" ∧ ∃ data,
      st' = (setAttr st.1 "roles" (vList data),
             if hasAttr st.2 "roles" = true then st.2
             else setAttr st.2 "roles" (vList [])))
    ∨ (e.key ∈ triggerAddKeys ∧ ∃ tmv,
      st' = ((if hasAttr st.1 "trigger_metadata" = true then st.1
              else setAttr st.1 "trigger_metadata" vNull),
             setAttr st.2 "trigger_metadata" tmv))
    ∨ (e.key ∈ triggerRemoveKeys ∧ ∃ tmv,
      st' = (setAttr st.1 "trigger_metadata" tmv,
             if hasAttr st.2 "trigger_metadata" = true then st.2
             else setAttr st.2 "trigger_metadata" vNull))
    ∨ (genericKey e.key ∧ ∃ w₁ w₂,
      st' = (setAttr st.1 (resolvedName e.key) w₁,
             setAttr st.2 (resolvedName e.key) w₂)) := by
  by_cases h₁ : e.key = "$add"
  · left
    refine ⟨h₁, ?_⟩
    unfold processElem at h
    rw [if_pos h₁] at h
    cases hnv : e.new_value with
    | none => rw [hnv] at h; simp at h
    | some nv =>
        rw [hnv] at h
        simp only [bindOk] at h
        cases hh : handleRole ctx st.1 st.2 nv with
        | error u => cases u; rw [hh] at h; simp at h
        | ok fs =>
            rw [hh] at h
            simp only [bindOk, Except.ok.injEq] at h
            subst h
            exact handleRole_ok_shape hh
  by_cases h₂ : e.key = "$remove"
  · right; left
    refine ⟨h₂, ?_⟩
    unfold processElem at h
    rw [if_neg h₁, if_pos h₂] at h
    cases hnv : e.new_value with
    | none => rw [hnv] at h; simp at h
    | some nv =>
        rw [hnv] at h
        simp only [bindOk] at h
        cases hh : handleRole ctx st.2 st.1 nv with
        | error u => cases u; rw [hh] at h; simp at h
        | ok fs =>
            rw [hh] at h
            simp only [bindOk, Except.ok.injEq] at h
            subst h
            obtain ⟨data, hfs⟩ := handleRole_ok_shape hh
            exact ⟨data, by rw [hfs]⟩
  by_cases h₃ : e.key ∈ triggerAddKeys
  · right; right; left
    refine ⟨h₃, ?_⟩
    unfold processElem at h
    rw [if_neg h₁, if_neg h₂, if_pos h₃] at h
    cases hnv : e.new_value with
    | none => rw [hnv] at h; simp at h
    | some nv =>
        rw [hnv] at h
        simp only [bindOk, Except.ok.injEq] at h
        subst h
        exact ⟨vTriggerMetadata (vDict [(splitSuffix e.key, nv)]), rfl⟩
  by_cases h₄ : e.key ∈ triggerRemoveKeys
  · right; right; right; left
    refine ⟨h₄, ?_⟩
    unfold processElem at h
    rw [if_neg h₁, if_neg h₂, if_neg h₃, if_pos h₄] at h
    cases hnv : e.new_value with
    | none => rw [hnv] at h; simp at h
    | some nv =>
        rw [hnv] at h
        simp only [bindOk, Except.ok.injEq] at h
        subst h
        exact ⟨vTriggerMetadata (vDict [(splitSuffix e.key, nv)]), rfl⟩
  · right; right; right; right
    exact ⟨⟨h₁, h₂, h₃, h₄⟩,
      processElem_generic_shape ⟨h₁, h₂, h₃, h₄⟩ h⟩

theorem processElem_preserves {env : EnumEnv} {ctx : EntryCtx}
    {st st' : Diff × Diff} {e : Change} {x : String}
    (h : processElem env ctx st e = .ok st')
    (hx : x ∉ writesAttr e.key) :
    getAttr st'.1 x = getAttr st.1 x
    ∧ getAttr st'.2 x = getAttr st.2 x := by
  rcases processElem_shape h with
    ⟨hk, data, rfl⟩ | ⟨hk, data, rfl⟩ | ⟨hk, tmv, rfl⟩ | ⟨hk, tmv, rfl⟩
    | ⟨hk, w₁, w₂, rfl⟩
  · rw [writesAttr_roles (Or.inl hk)] at hx
    simp only [List.mem_singleton] at hx
    constructor
    · by_cases hr : hasAttr st.1 "roles" = true <;>
        simp [hr, getAttr_setAttr_ne _ _ _ _ hx]
    · exact getAttr_setAttr_ne _ _ _ _ hx
  · rw [writesAttr_roles (Or.inr hk)] at hx
    simp only [List.mem_singleton] at hx
    constructor
    · exact getAttr_setAttr_ne _ _ _ _ hx
    · by_cases hr : hasAttr st.2 "roles" = true <;>
        simp [hr, getAttr_setAttr_ne _ _ _ _ hx]
  · rw [writesAttr_trigger (Or.inl hk)] at hx
    simp only [List.mem_singleton] at hx
    constructor
    · by_cases hr : hasAttr st.1 "trigger_metadata" = true <;>
        simp [hr, getAttr_setAttr_ne _ _ _ _ hx]
    · exact getAttr_setAttr_ne _ _ _ _ hx
  · rw [writesAttr_trigger (Or.inr hk)] at hx
    simp only [List.mem_singleton] at hx
    constructor
    · exact getAttr_setAttr_ne _ _ _ _ hx
    · by_cases hr : hasAttr st.2 "trigger_metadata" = true <;>
        simp [hr, getAttr_setAttr_ne _ _ _ _ hx]
  · rw [writesAttr_generic hk] at hx
    simp only [List.mem_singleton] at hx
    exact ⟨getAttr_setAttr_ne _ _ _ _ hx, getAttr_setAttr_ne _ _ _ _ hx⟩

theorem hasAttr_placeholder_mono (d : Diff) (k x : String) (v : Value)
    (hp : hasAttr d x = true) :
    hasAttr (if hasAttr d k = true then d else setAttr d k v) x
      = true := by
  by_cases hr : hasAttr d k = true
  · simpa [hr] using hp
  · simp only [hr, if_false]
    exact hasAttr_setAttr_mono _ _ _ _ hp

theorem processElem_mono {env : EnumEnv} {ctx : EntryCtx}
    {st st' : Diff × Diff} {e : Change} {x : String}
    (h : processElem env ctx st e = .ok st') :
    (hasAttr st.1 x = true → hasAttr st'.1 x = true)
    ∧ (hasAttr st.2 x = true → hasAttr st'.2 x = true) := by
  rcases processElem_shape h with
    ⟨hk, data, rfl⟩ | ⟨hk, data, rfl⟩ | ⟨hk, tmv, rfl⟩ | ⟨hk, tmv, rfl⟩
    | ⟨hk, w₁, w₂, rfl⟩
  · exact ⟨fun hp => hasAttr_placeholder_mono _ _ _ _ hp,
           fun hp => hasAttr_setAttr_mono _ _ _ _ hp⟩
  · exact ⟨fun hp => hasAttr_setAttr_mono _ _ _ _ hp,
           fun hp => hasAttr_placeholder_mono _ _ _ _ hp⟩
  · exact ⟨fun hp => hasAttr_placeholder_mono _ _ _ _ hp,
           fun hp => hasAttr_setAttr_mono _ _ _ _ hp⟩
  · exact ⟨fun hp => hasAttr_setAttr_mono _ _ _ _ hp,
           fun hp => hasAttr_placeholder_mono _ _ _ _ hp⟩
  · exact ⟨fun hp => hasAttr_setAttr_mono _ _ _ _ hp,
           fun hp => hasAttr_setAttr_mono _ _ _ _ hp⟩

theorem processList_append (env : EnumEnv) (ctx : EntryCtx)
    (st : Diff × Diff) (xs ys : List Change) :
    processList env ctx st (xs ++ ys)
      = (processList env ctx st xs) >>= fun st' =>
          processList env ctx st' ys := by
  induction xs generalizing st with
  | nil => simp [processList]
  | cons e rest ih =>
      simp only [List.cons_append, processList]
      cases hpe : processElem env ctx st e with
      | error u => cases u; simp
      | ok st₁ => simp [ih]

theorem processList_preserves {env : EnumEnv} {ctx : EntryCtx}
    {st st' : Diff × Diff} {l : List Change} {x : String}
    (hall : ∀ e ∈ l, x ∉ writesAttr e.key)
    (h : processList env ctx st l = .ok st') :
    getAttr st'.1 x = getAttr st.1 x
    ∧ getAttr st'.2 x = getAttr st.2 x := by
  induction l generalizing st with
  | nil =>
      simp only [processList, Except.ok.injEq] at h
      subst h
      exact ⟨rfl, rfl⟩
  | cons e rest ih =>
      simp only [processList] at h
      cases hpe : processElem env ctx st e with
      | error u => cases u; rw [hpe] at h; simp at h
      | ok st₁ =>
          rw [hpe] at h
          simp only [bindOk] at h
          have h₁ := processElem_preserves hpe (hall e (List.mem_cons_self e _))
          have h₂ := ih (fun e' he' => hall e' (List.mem_cons_of_mem _ he')) h
          exact ⟨h₂.1.trans h₁.1, h₂.2.trans h₁.2⟩

theorem processList_mono {env : EnumEnv} {ctx : EntryCtx}
    {st st' : Diff × Diff} {l : List Change} {x : String}
    (h : processList env ctx st l = .ok st') :
    (hasAttr st.1 x = true → hasAttr st'.1 x = true)
    ∧ (hasAttr st.2 x = true → hasAttr st'.2 x = true) := by
  induction l generalizing st with
  | nil =>
      simp only [processList, Except.ok.injEq] at h
      subst h
      exact ⟨id, id⟩
  | cons e rest ih =>
      simp only [processList] at h
      cases hpe : processElem env ctx st e with
      | error u => cases u; rw [hpe] at h; simp at h
      | ok st₁ =>
          rw [hpe] at h
          simp only [bindOk] at h
          have h₁ := processElem_mono (x := x) hpe
          have h₂ := ih h
          exact ⟨fun hp => h₂.1 (h₁.1 hp), fun hp => h₂.2 (h₁.2 hp)⟩

theorem processList_keep {env : EnumEnv} {ctx : EntryCtx}
    {l : List Change} {st st' : Diff × Diff} {a : String}
    {t₁ t₂ : Value} {elem : Change}
    (hex : ∀ st₀ : Diff × Diff, processElem env ctx st₀ elem
      = .ok (setAttr st₀.1 a t₁, setAttr st₀.2 a t₂))
    (hall : ∀ e ∈ l, a ∉ writesAttr e.key ∨ e = elem)
    (h : processList env ctx st l = .ok st')
    (hv₁ : getAttr st.1 a = some t₁) (hv₂ : getAttr st.2 a = some t₂) :
    getAttr st'.1 a = some t₁ ∧ getAttr st'.2 a = some t₂ := by
  induction l generalizing st with
  | nil =>
      simp only [processList, Except.ok.injEq] at h
      subst h
      exact ⟨hv₁, hv₂⟩
  | cons e rest ih =>
      simp only [processList] at h
      cases hpe : processElem env ctx st e with
      | error u => cases u; rw [hpe] at h; simp at h
      | ok st₁ =>
          rw [hpe] at h
          simp only [bindOk] at h
          rcases hall e (List.mem_cons_self e _) with hx | rfl
          · have hp := processElem_preserves hpe hx
            exact ih (fun e' he' => hall e' (List.mem_cons_of_mem _ he'))
              h (hp.1.trans hv₁) (hp.2.trans hv₂)
          · rw [hex st] at hpe
            simp only [Except.ok.injEq] at hpe
            subst hpe
            exact ih (fun e' he' => hall e' (List.mem_cons_of_mem _ he'))
              h (getAttr_setAttr_self _ _ _) (getAttr_setAttr_self _ _ _)

theorem mirrorAttr_preserves {src dst : String} {st st' : Diff × Diff}
    {x : String} (h : mirrorAttr src dst st = .ok st') (hx : x ≠ dst) :
    getAttr st'.1 x = getAttr st.1 x
    ∧ getAttr st'.2 x = getAttr st.2 x := by
  unfold mirrorAttr at h
  by_cases hc : hasAttr st.2 src = true
  · rw [if_pos hc] at h
    cases hg₁ : getAttr st.2 src with
    | none => rw [hg₁] at h; simp [reqVal] at h
    | some av =>
        rw [hg₁] at h
        simp only [reqVal, bindOk] at h
        cases hg₂ : getAttr st.1 src with
        | none => rw [hg₂] at h; simp [reqVal] at h
        | some bv =>
            rw [hg₂] at h
            simp only [reqVal, bindOk, Except.ok.injEq] at h
            subst h
            exact ⟨getAttr_setAttr_ne _ _ _ _ hx,
                   getAttr_setAttr_ne _ _ _ _ hx⟩
  · rw [if_neg hc] at h
    simp only [Except.ok.injEq] at h
    subst h
    exact ⟨rfl, rfl⟩

theorem mirrorAttr_mono {src dst : String} {st st' : Diff × Diff}
    {x : String} (h : mirrorAttr src dst st = .ok st') :
    (hasAttr st.1 x = true → hasAttr st'.1 x = true)
    ∧ (hasAttr st.2 x = true → hasAttr st'.2 x = true) := by
  unfold mirrorAttr at h
  by_cases hc : hasAttr st.2 src = true
  · rw [if_pos hc] at h
    cases hg₁ : getAttr st.2 src with
    | none => rw [hg₁] at h; simp [reqVal] at h
    | some av =>
        rw [hg₁] at h
        simp only [reqVal, bindOk] at h
        cases hg₂ : getAttr st.1 src with
        | none => rw [hg₂] at h; simp [reqVal] at h
        | some bv =>
            rw [hg₂] at h
            simp only [reqVal, bindOk, Except.ok.injEq] at h
            subst h
            exact ⟨fun hp => hasAttr_setAttr_mono _ _ _ _ hp,
                   fun hp => hasAttr_setAttr_mono _ _ _ _ hp⟩
  · rw [if_neg hc] at h
    simp only [Except.ok.injEq] at h
    subst h
    exact ⟨id, id⟩

theorem aliasPass_preserves {st st' : Diff × Diff} {x : String}
    (h : aliasPass st = .ok st') (hx₁ : x ≠ "color")
    (hx₂ : x ≠ "expire_behaviour") :
    getAttr st'.1 x = getAttr st.1 x
    ∧ getAttr st'.2 x = getAttr st.2 x := by
  unfold aliasPass at h
  cases hm₁ : mirrorAttr "colour" "color" st with
  | error u => cases u; rw [hm₁] at h; simp at h
  | ok st₁ =>
      rw [hm₁] at h
      simp only [bindOk] at h
      have h₁ := mirrorAttr_preserves hm₁ hx₁
      have h₂ := mirrorAttr_preserves h hx₂
      exact ⟨h₂.1.trans h₁.1, h₂.2.trans h₁.2⟩

theorem aliasPass_mono {st st' : Diff × Diff} {x : String}
    (h : aliasPass st = .ok st') :
    (hasAttr st.1 x = true → hasAttr st'.1 x = true)
    ∧ (hasAttr st.2 x = true → hasAttr st'.2 x = true) := by
  unfold aliasPass at h
  cases hm₁ : mirrorAttr "colour" "color" st with
  | error u => cases u; rw [hm₁] at h; simp at h
  | ok st₁ =>
      rw [hm₁] at h
      simp only [bindOk] at h
      have h₁ := mirrorAttr_mono (x := x) hm₁
      have h₂ := mirrorAttr_mono (x := x) h
      exact ⟨fun hp => h₂.1 (h₁.1 hp), fun hp => h₂.2 (h₁.2 hp)⟩

theorem registered_generic {k : String}
    {p : Option String × Option TTag} (h : transformInfo k = some p) :
    genericKey k := by
  refine ⟨?_, ?_, ?_, ?_⟩
  · rintro rfl; exact Option.noConfusion h
  · rintro rfl; exact Option.noConfusion h
  · intro hk
    simp only [triggerAddKeys, List.mem_cons, List.mem_singleton,
      List.not_mem_nil, or_false] at hk
    rcases hk with rfl | rfl | rfl <;> exact Option.noConfusion h
  · intro hk
    simp only [triggerRemoveKeys, List.mem_cons, List.mem_singleton,
      List.not_mem_nil, or_false] at hk
    rcases hk with rfl | rfl | rfl <;> exact Option.noConfusion h

theorem transformInfo_rename {k r : String} {p : Option TTag}
    (h : transformInfo k = some (some r, p)) :
    r ≠ "location" ∧ r ≠ "color" ∧ r ≠ "expire_behaviour" := by
  unfold transformInfo at h
  split at h <;>
    first
      | exact Option.noConfusion h
      | (simp only [Option.some.injEq, Prod.mk.injEq] at h
         obtain ⟨rfl, -⟩ := h
         decide)
      | simp at h

theorem resolved_not_special {k : String} {ren : Option String}
    {tag : Option TTag} (h : transformInfo k = some (ren, tag)) :
    resolvedName k ≠ "location" ∧ resolvedName k ≠ "color"
    ∧ resolvedName k ≠ "expire_behaviour" := by
  cases ren with
  | some r =>
      have hr := transformInfo_rename h
      have ha : resolvedName k = r := by simp [resolvedName, h]
      rw [ha]
      exact hr
  | none =>
      have ha : resolvedName k = k := by simp [resolvedName, h]
      rw [ha]
      refine ⟨?_, ?_, ?_⟩ <;> rintro rfl
      · exact Option.noConfusion h
      · rw [show transformInfo "color"
            = some (some "colour", some TTag.colorT) from rfl] at h
        simp at h
      · exact Option.noConfusion h

theorem processElem_generic_exact {env : EnumEnv} {ctx : EntryCtx}
    {e : Change} {ren : Option String} {tag : TTag} {vo vn t₁ t₂ : Value}
    (hti : transformInfo e.key = some (ren, some tag))
    (hnl : resolvedName e.key ≠ "location")
    (ho : e.old_value = some vo) (hn : e.new_value = some vn)
    (ht₁ : applyT tag env ctx vo = .ok t₁)
    (ht₂ : applyT tag env ctx vn = .ok t₂) :
    ∀ st : Diff × Diff, processElem env ctx st e
      = .ok (setAttr st.1 (resolvedName e.key) t₁,
             setAttr st.2 (resolvedName e.key) t₂) := by
  intro st
  obtain ⟨h₁, h₂, h₃, h₄⟩ := registered_generic hti
  unfold processElem
  rw [if_neg h₁, if_neg h₂, if_neg h₃, if_neg h₄, hti, ho, hn]
  cases ren with
  | none =>
      have ha : resolvedName e.key = e.key := by simp [resolvedName, hti]
      rw [ha] at hnl ⊢
      simp only [genericValue, ht₁, ht₂, bindOk]
      simp [locWrap, hnl]
  | some r =>
      have ha : resolvedName e.key = r := by simp [resolvedName, hti]
      rw [ha] at hnl ⊢
      simp only [genericValue, ht₁, ht₂, bindOk]
      simp [locWrap, hnl]

/-- C1 (counterexample): a generic-path record that omits `old_value`
does not leave the resolved name unset in the `before` bag — the loop
runs `setattr(self.before, attr, before)` unconditionally with
`before = None`, so the key is present and holds `None`. -/
theorem omitted_side_still_set_cex :
    changesInit sampleEnv sampleCtx [⟨"name", none, some (vStr "x")⟩]
      = .ok ([("name", vNull)], [("name", vStr "x")])
    ∧ hasAttr [("name", vNull)] "name" = true :=
  ⟨rfl, rfl⟩

/-- C1 (amended): every generic-path (non-composite) record leaves its
resolved attribute name present in BOTH bags — a side whose raw value
is omitted is set to `None` rather than left unset, so on the generic
path a key present in one bag is always present in the other. -/
theorem generic_key_present_in_both_bags (env : EnumEnv)
    (ctx : EntryCtx) (data : List Change) (elem : Change) (b a : Diff)
    (hmem : elem ∈ data) (hg : genericKey elem.key)
    (hdec : changesInit env ctx data = .ok (b, a)) :
    hasAttr b (resolvedName elem.key) = true
    ∧ hasAttr a (resolvedName elem.key) = true := by
  unfold changesInit at hdec
  cases hpl : processList env ctx ([], [])
      (List.insertionSort keyLE data) with
  | error u => cases u; rw [hpl] at hdec; simp at hdec
  | ok st₀ =>
      rw [hpl] at hdec
      simp only [bindOk] at hdec
      have hmem' : elem ∈ List.insertionSort keyLE data :=
        ((List.perm_insertionSort keyLE data).mem_iff).mpr hmem
      obtain ⟨s₁, s₂, hsplit⟩ := List.append_of_mem hmem'
      rw [hsplit, processList_append] at hpl
      cases hp₁ : processList env ctx ([], []) s₁ with
      | error u => cases u; rw [hp₁] at hpl; simp at hpl
      | ok stA =>
          rw [hp₁] at hpl
          simp only [bindOk, processList] at hpl
          cases hpe : processElem env ctx stA elem with
          | error u => cases u; rw [hpe] at hpl; simp at hpl
          | ok stB =>
              rw [hpe] at hpl
              simp only [bindOk] at hpl
              obtain ⟨w₁, w₂, rfl⟩ := processElem_generic_shape hg hpe
              have hmono :=
                processList_mono (x := resolvedName elem.key) hpl
              have hal :=
                aliasPass_mono (x := resolvedName elem.key) hdec
              exact ⟨hal.1 (hmono.1 (hasAttr_setAttr_self _ _ _)),
                     hal.2 (hmono.2 (hasAttr_setAttr_self _ _ _))⟩

/-- Witness for C1 (amended): a single record with `old_value` omitted
still has the key on both sides. -/
theorem generic_key_present_in_both_bags_witness :
    hasAttr [("name", vNull)] (resolvedName "name") = true
    ∧ hasAttr [("name", vStr "x")] (resolvedName "name") = true :=
  generic_key_present_in_both_bags sampleEnv sampleCtx
    [⟨"name", none, some (vStr "x")⟩]
    ⟨"name", none, some (vStr "x")⟩ _ _
    (List.mem_cons_self _ _) ⟨by decide, by decide, by decide, by decide⟩
    rfl

/-- C6 (counterexample): two records sharing the key `permissions`
(both with `old_value` and `new_value` and a registered transformer)
cannot both satisfy `before = transformer(old)`: the later record
overwrites the earlier one's value, so decoding stores
`Permissions(32)` under `permissions` although the first record's
transformed `old_value` is `Permissions(8)`. -/
theorem duplicate_key_overwrites_cex :
    changesInit sampleEnv sampleCtx
      [⟨"permissions", some (vStr "8"), some (vStr "16")⟩,
       ⟨"permissions", some (vStr "32"), some (vStr "64")⟩]
      = .ok ([("permissions", vPermissions 32)],
             [("permissions", vPermissions 64)])
    ∧ applyT .permsT sampleEnv sampleCtx (vStr "8")
      = .ok (vPermissions 8)
    ∧ (vPermissions 32 ≠ vPermissions 8) := by
  refine ⟨rfl, rfl, ?_⟩
  intro h
  injection h with h'
  exact absurd h' (by decide)

/-- C6 (amended): for a non-composite record whose key has a
registered transformer and which carries both `old_value` and
`new_value`, the decoded bags hold `transformer(old)` under the
resolved name in `before` and `transformer(new)` in `after` — provided
no other record of the list writes the same resolved attribute (with
a duplicate writer the last processed record wins instead). -/
theorem before_after_transformer_values (env : EnumEnv)
    (ctx : EntryCtx) (data : List Change) (elem : Change)
    (ren : Option String) (tag : TTag) (vo vn t₁ t₂ : Value)
    (b a : Diff)
    (hmem : elem ∈ data)
    (hti : transformInfo elem.key = some (ren, some tag))
    (ho : elem.old_value = some vo) (hn : elem.new_value = some vn)
    (ht₁ : applyT tag env ctx vo = .ok t₁)
    (ht₂ : applyT tag env ctx vn = .ok t₂)
    (huniq : ∀ e' ∈ data,
      resolvedName elem.key ∉ writesAttr e'.key ∨ e' = elem)
    (hdec : changesInit env ctx data = .ok (b, a)) :
    getAttr b (resolvedName elem.key) = some t₁
    ∧ getAttr a (resolvedName elem.key) = some t₂ := by
  have hspec := resolved_not_special hti
  have hex := processElem_generic_exact hti hspec.1 ho hn ht₁ ht₂
  unfold changesInit at hdec
  cases hpl : processList env ctx ([], [])
      (List.insertionSort keyLE data) with
  | error u => cases u; rw [hpl] at hdec; simp at hdec
  | ok st₀ =>
      rw [hpl] at hdec
      simp only [bindOk] at hdec
      have hmem' : elem ∈ List.insertionSort keyLE data :=
        ((List.perm_insertionSort keyLE data).mem_iff).mpr hmem
      obtain ⟨s₁, s₂, hsplit⟩ := List.append_of_mem hmem'
      rw [hsplit, processList_append] at hpl
      cases hp₁ : processList env ctx ([], []) s₁ with
      | error u => cases u; rw [hp₁] at hpl; simp at hpl
      | ok stA =>
          rw [hp₁] at hpl
          simp only [bindOk, processList] at hpl
          rw [hex stA] at hpl
          simp only [bindOk] at hpl
          have hall : ∀ e' ∈ s₂,
              resolvedName elem.key ∉ writesAttr e'.key ∨ e' = elem := by
            intro e' he'
            apply huniq
            have hin : e' ∈ List.insertionSort keyLE data := by
              rw [hsplit]
              exact List.mem_append_right _ (List.mem_cons_of_mem _ he')
            exact ((List.perm_insertionSort keyLE data).mem_iff).mp hin
          have hkeep := processList_keep hex hall hpl
            (getAttr_setAttr_self _ _ _) (getAttr_setAttr_self _ _ _)
          have hfin := aliasPass_preserves hdec hspec.2.1 hspec.2.2
          exact ⟨hfin.1.trans hkeep.1, hfin.2.trans hkeep.2⟩

/-- Witness for C6 (amended): a `permissions` record with both sides
present stores `Permissions(8)`/`Permissions(16)` on
`before`/`after`. -/
theorem before_after_transformer_values_witness :
    getAttr [("permissions", vPermissions 8)] (resolvedName "permissions")
      = some (vPermissions 8)
    ∧ getAttr [("permissions", vPermissions 16)]
        (resolvedName "permissions") = some (vPermissions 16) :=
  before_after_transformer_values sampleEnv sampleCtx
    [⟨"permissions", some (vStr "8"), some (vStr "16")⟩]
    ⟨"permissions", some (vStr "8"), some (vStr "16")⟩
    none .permsT (vStr "8") (vStr "16")
    (vPermissions 8) (vPermissions 16) _ _
    (List.mem_cons_self _ _) rfl rfl rfl rfl rfl
    (fun _ he' => Or.inr (List.mem_singleton.mp he'))
    rfl

/-- C3 (counterexample): an entry whose `entity_type` changes from 2
(non-external) to 3 (external) with a `location` change decodes the
`before` location as the raw scalar, even though the
opposite-direction bag (`after`) carries the external `location_type`;
the claim's opposite-bag rule would demand a wrapped value there. -/
theorem location_wrap_opposite_cex :
    changesInit sampleEnv emptyCtx
      [⟨"entity_type", some (vInt 2), some (vInt 3)⟩,
       ⟨"location", some (vStr "x"), some (vStr "y")⟩]
      = .ok ([("location_type",
               vEnum "ScheduledEventLocationType" (vInt 2) true),
              ("location", vStr "x")],
             [("location_type",
               vEnum "ScheduledEventLocationType" (vInt 3) true),
              ("location", vSEL (vStr "y"))])
    ∧ isExternalLocType sampleEnv
        (vEnum "ScheduledEventLocationType" (vInt 3) true) = true
    ∧ (vStr "x" ≠ vSEL (vStr "x")) := by
  refine ⟨rfl, rfl, ?_⟩
  intro h
  cases h

/-- C3 (amended): the `location` special case consults the
same-direction bag, not the opposite one: for each side, when that
side's bag already carries a `location_type` (written by the
`entity_type` record, which sorts earlier), the stored `location` is a
`ScheduledEventLocation` wrapping the raw scalar if that
`location_type` is the external member, else wrapping the bag's
`channel` when one is present, and the raw value otherwise (also when
no `location_type` was seen at all). -/
theorem location_wrap_same_direction (env : EnumEnv) (ctx : EntryCtx)
    (useCh : Bool) (c₁ c₂ lt₁ lt₂ : Int) (loc₁ loc₂ : Value) :
    changesInit env ctx
      ((if useCh then [⟨"channel_id", some (vInt c₁), some (vInt c₂)⟩]
        else [])
       ++ [⟨"entity_type", some (vInt lt₁), some (vInt lt₂)⟩,
           ⟨"location", some loc₁, some loc₂⟩])
      = .ok
        ((if useCh then
            [(("channel" : String),
              (getChannel ctx c₁).getD (vObject c₁ none))] else [])
          ++ [("location_type",
               tryEnum env "ScheduledEventLocationType" (vInt lt₁)),
              ("location",
               if isExternalLocType env
                   (tryEnum env "ScheduledEventLocationType" (vInt lt₁))
               then vSEL loc₁
               else if useCh
               then vSEL ((getChannel ctx c₁).getD (vObject c₁ none))
               else loc₁)],
         (if useCh then
            [(("channel" : String),
              (getChannel ctx c₂).getD (vObject c₂ none))] else [])
          ++ [("location_type",
               tryEnum env "ScheduledEventLocationType" (vInt lt₂)),
              ("location",
               if isExternalLocType env
                   (tryEnum env "ScheduledEventLocationType" (vInt lt₂))
               then vSEL loc₂
               else if useCh
               then vSEL ((getChannel ctx c₂).getD (vObject c₂ none))
               else loc₂)]) := by
  have hloc : ∀ st : Diff × Diff, processElem env ctx st
      ⟨"location", some loc₁, some loc₂⟩
      = .ok (setAttr st.1 "location" (locWrap env st.1 "location" loc₁),
             setAttr st.2 "location" (locWrap env st.2 "location" loc₂)) :=
    fun st => rfl
  have hent : ∀ st : Diff × Diff, processElem env ctx st
      ⟨"entity_type", some (vInt lt₁), some (vInt lt₂)⟩
      = .ok (setAttr st.1 "location_type"
               (tryEnum env "ScheduledEventLocationType" (vInt lt₁)),
             setAttr st.2 "location_type"
               (tryEnum env "ScheduledEventLocationType" (vInt lt₂))) :=
    fun st => rfl
  cases useCh with
  | false =>
      have hsort : List.insertionSort keyLE
          [⟨"entity_type", some (vInt lt₁), some (vInt lt₂)⟩,
           ⟨"location", some loc₁, some loc₂⟩]
          = [⟨"entity_type", some (vInt lt₁), some (vInt lt₂)⟩,
             ⟨"location", some loc₁, some loc₂⟩] := rfl
      simp only [Bool.false_eq_true, if_false, List.nil_append]
      unfold changesInit
      rw [hsort]
      simp only [processList, hent, bindOk, hloc]
      simp [locWrap, getAttr, setAttr, hasAttr, aliasPass, mirrorAttr, reqVal]
  | true =>
      have hch : processElem env ctx ([], [])
          ⟨"channel_id", some (vInt c₁), some (vInt c₂)⟩
          = .ok ([("channel", (getChannel ctx c₁).getD (vObject c₁ none))],
                 [("channel", (getChannel ctx c₂).getD (vObject c₂ none))])
        := rfl
      have hsort : List.insertionSort keyLE
          [⟨"channel_id", some (vInt c₁), some (vInt c₂)⟩,
           ⟨"entity_type", some (vInt lt₁), some (vInt lt₂)⟩,
           ⟨"location", some loc₁, some loc₂⟩]
          = [⟨"channel_id", some (vInt c₁), some (vInt c₂)⟩,
             ⟨"entity_type", some (vInt lt₁), some (vInt lt₂)⟩,
             ⟨"location", some loc₁, some loc₂⟩] := rfl
      simp only [if_true, List.singleton_append]
      unfold changesInit
      rw [hsort]
      simp only [processList, hch, bindOk, hent, hloc]
      simp [locWrap, getAttr, setAttr, hasAttr, aliasPass, mirrorAttr, reqVal]

/-- Witness for C3 (amended, trivially hypothesis-free): instantiated
with a channel record and distinct location types on the two sides. -/
theorem location_wrap_same_direction_witness :
    changesInit sampleEnv sampleCtx
      [⟨"channel_id", some (vInt 10), some (vInt 11)⟩,
       ⟨"entity_type", some (vInt 2), some (vInt 3)⟩,
       ⟨"location", some (vStr "x"), some (vStr "y")⟩]
      = .ok ([("channel", vChannel 10),
              ("location_type",
               vEnum "ScheduledEventLocationType" (vInt 2) true),
              ("location", vSEL (vChannel 10))],
             [("channel", vObject 11 none),
              ("location_type",
               vEnum "ScheduledEventLocationType" (vInt 3) true),
              ("location", vSEL (vStr "y"))]) := by
  have h := location_wrap_same_direction sampleEnv sampleCtx true
    10 11 2 3 (vStr "x") (vStr "y")
  simpa using h

/-- Witness for C4 (amended) on the empty caches. -/
theorem transform_miss_fallback_witness :
    applyT .channelT sampleEnv emptyCtx (vInt 5) = .ok (vObject 5 none)
    ∧ applyT .rolesT sampleEnv emptyCtx (vList [vInt 5])
      = .ok (vList [vObject 5 none])
    ∧ applyT .overwritesT sampleEnv emptyCtx (vList [vDict
        [("allow", vInt 8), ("deny", vInt 4),
         ("type", vInt 0), ("id", vInt 5)]])
      = .ok (vList [vPair (vObject 5 none) (vOverwrite 8 4)])
    ∧ applyT .memberIdT sampleEnv emptyCtx (vInt 5) = .ok vNull
    ∧ applyT .guildIdT sampleEnv emptyCtx (vInt 5) = .ok vNull :=
  transform_miss_fallback sampleEnv emptyCtx 5 8 4
    (by decide) rfl (by decide) (by decide) (by decide)

/-- C5: a change list holding a `$add` record and/or a `$remove`
record of role stubs decodes so that the resolved `$add` list lands as
`roles` on the `after` bag and the resolved `$remove` list as `roles`
on the `before` bag (stub resolution = cached role, else an id
reference carrying the stub's `name`); both bags carry a `roles` key
even when only one record type appeared, the opposite bag getting the
empty-list placeholder. -/
theorem roles_add_remove_placement (env : EnumEnv) (ctx : EntryCtx)
    (hasAdd hasRem : Bool) (addStubs remStubs : List Value)
    (resolvedAdd resolvedRem : List Value)
    (hone : hasAdd = true ∨ hasRem = true)
    (hra : addStubs.mapM (resolveRoleStub ctx) = .ok resolvedAdd)
    (hrr : remStubs.mapM (resolveRoleStub ctx) = .ok resolvedRem) :
    changesInit env ctx
      ((if hasAdd then [⟨"$add", none, some (vList addStubs)⟩] else [])
        ++ (if hasRem then [⟨"$remove", none, some (vList remStubs)⟩]
            else []))
      = .ok ([("roles", vList (if hasRem then resolvedRem else []))],
             [("roles", vList (if hasAdd then resolvedAdd else []))]) := by
  simp only [List.mapM] at hra hrr
  cases hasAdd with
  | false =>
      cases hasRem with
      | false => rcases hone with h | h <;> cases h
      | true =>
          have hsort : List.insertionSort keyLE
              [⟨"$remove", none, some (vList remStubs)⟩]
              = [⟨"$remove", none, some (vList remStubs)⟩] := rfl
          simp [changesInit, hsort, processList, processElem, handleRole,
            hrr, hasAttr, getAttr, setAttr, aliasPass, mirrorAttr, reqVal, triggerAddKeys,
            triggerRemoveKeys]
  | true =>
      cases hasRem with
      | false =>
          have hsort : List.insertionSort keyLE
              [⟨"$add", none, some (vList addStubs)⟩]
              = [⟨"$add", none, some (vList addStubs)⟩] := rfl
          simp [changesInit, hsort, processList, processElem, handleRole,
            hra, hasAttr, getAttr, setAttr, aliasPass, mirrorAttr, reqVal, triggerAddKeys,
            triggerRemoveKeys]
      | true =>
          have hsort : List.insertionSort keyLE
              [⟨"$add", none, some (vList addStubs)⟩,
               ⟨"$remove", none, some (vList remStubs)⟩]
              = [⟨"$add", none, some (vList addStubs)⟩,
                 ⟨"$remove", none, some (vList remStubs)⟩] := rfl
          simp [changesInit, hsort, processList, processElem, handleRole,
            hra, hrr, hasAttr, getAttr, setAttr, aliasPass, mirrorAttr,
            reqVal, triggerAddKeys, triggerRemoveKeys]

/-- Witness for C5 matching the spec's example: `$add` of
`{id: "1", name: "A"}` and `$remove` of `{id: "2", name: "B"}` on an
entry with no cached roles. -/
theorem roles_add_remove_placement_witness :
    changesInit sampleEnv emptyCtx
      [⟨"$add", none, some (vList [vDict [("id", vStr "1"),
        ("name", vStr "A")]])⟩,
       ⟨"$remove", none, some (vList [vDict [("id", vStr "2"),
        ("name", vStr "B")]])⟩]
      = .ok ([("roles", vList [vObject 2 (some (vStr "B"))])],
             [("roles", vList [vObject 1 (some (vStr "A"))])]) := by
  have h := roles_add_remove_placement sampleEnv emptyCtx true true
    [vDict [("id", vStr "1"), ("name", vStr "A")]]
    [vDict [("id", vStr "2"), ("name", vStr "B")]]
    [vObject 1 (some (vStr "A"))] [vObject 2 (some (vStr "B"))]
    (Or.inl rfl) rfl rfl
  simpa using h


end AuditLogs
